import Mathlib

/-!
Verification of the weave-drawdown and imaging core of the Textile Studio
repository.  Each definition is a shallow embedding of the corresponding
TypeScript function; machine numbers are modelled as `Nat`/`Int` (byte buffers
hold `Nat` values) and the floating-point centroid arithmetic of the k-means
clustering is modelled over `ℚ` with explicit rounding.  `Uint8Array`
buffers become `List ℕ`, `Int16Array` index maps become `List ℤ`, and a
JavaScript read `a[i]` that may yield `undefined` becomes `a[i]?`
(`Option`), with the `undefined`-propagation of the source reproduced at
each use site.
-/

/-! ## Dobby weave data model (src/types/weaveModel.ts) -/

/-- Loom capacity limits (`loom` field of `WeaveModel`). -/
structure LoomLimits where
  maxHarness : ℕ
  maxTreadle : ℕ
  maxWarp : ℕ
  maxWeft : ℕ
deriving DecidableEq, Repr

/-- Horizontal/vertical repeat multipliers (`repeat` field). -/
structure RepeatSpec where
  warp : ℕ
  weft : ℕ
deriving DecidableEq, Repr

/-- Mirror flags for alternate repeats (`symmetry` field). -/
structure SymmetrySpec where
  warpMirror : Bool
  weftMirror : Bool
deriving DecidableEq, Repr

/-- The dobby weave draft (`WeaveModel` in src/types/weaveModel.ts).
`threading`, `treadling` and `tieUp` are `Uint8Array`s in the source,
modelled as `List ℕ`. -/
structure WeaveModel where
  warpCount : ℕ
  weftCount : ℕ
  harnessCount : ℕ
  treadleCount : ℕ
  threading : List ℕ
  treadling : List ℕ
  tieUp : List ℕ
  warpColors : List String
  weftColors : List String
  «repeat» : RepeatSpec
  symmetry : SymmetrySpec
  loom : LoomLimits
deriving DecidableEq, Repr

/-! ## Drawdown engine (generateDrawdown in src/core/cad, part_008) -/

/-- Body of the double loop of `generateDrawdown`: the lift bit computed for
output cell `(x, y)`.  A JavaScript read that would be `undefined`
(out-of-range `threading`/`treadling`/`tieUp` access) propagates to a falsy
`lift` and hence a `0` cell, modelled by the `Option` matches. -/
def drawdownCell (m : WeaveModel) (x y : ℕ) : ℕ :=
  let baseX0 := x % m.warpCount
  let baseY0 := y % m.weftCount
  let baseX :=
    if m.symmetry.warpMirror ∧ (x / m.warpCount) % 2 = 1 then
      m.warpCount - 1 - baseX0
    else baseX0
  let baseY :=
    if m.symmetry.weftMirror ∧ (y / m.weftCount) % 2 = 1 then
      m.weftCount - 1 - baseY0
    else baseY0
  match m.threading[baseX]?, m.treadling[baseY]? with
  | some harness, some treadle =>
    match m.tieUp[harness * m.treadleCount + treadle]? with
    | some lift => if lift ≠ 0 then 1 else 0
    | none => 0
  | _, _ => 0

/-- `generateDrawdown` (part_008): flat row-major grid of size
`(warpCount * repeat.warp) * (weftCount * repeat.weft)`; the source writes
`drawdown[y * outWidth + x]`, so the flat index `i` decomposes as
`x = i % outWidth`, `y = i / outWidth`. -/
def generateDrawdown (m : WeaveModel) : List ℕ :=
  let outWidth := m.warpCount * m.«repeat».warp
  let outHeight := m.weftCount * m.«repeat».weft
  (List.range (outWidth * outHeight)).map fun i =>
    drawdownCell m (i % outWidth) (i / outWidth)

/-! ## Helper lemmas for flat grids -/

theorem generateDrawdown_length (m : WeaveModel) :
    (generateDrawdown m).length =
      (m.warpCount * m.«repeat».warp) * (m.weftCount * m.«repeat».weft) := by
  simp [generateDrawdown]

theorem generateDrawdown_getElem? (m : WeaveModel) {x y : ℕ}
    (hx : x < m.warpCount * m.«repeat».warp)
    (hy : y < m.weftCount * m.«repeat».weft) :
    (generateDrawdown m)[y * (m.warpCount * m.«repeat».warp) + x]? =
      some (drawdownCell m x y) := by
  have hW : 0 < m.warpCount * m.«repeat».warp := Nat.pos_of_ne_zero (by omega)
  have hidx : y * (m.warpCount * m.«repeat».warp) + x <
      (m.warpCount * m.«repeat».warp) * (m.weftCount * m.«repeat».weft) := by
    calc y * (m.warpCount * m.«repeat».warp) + x
        < y * (m.warpCount * m.«repeat».warp) + (m.warpCount * m.«repeat».warp) :=
          Nat.add_lt_add_left hx _
      _ = (y + 1) * (m.warpCount * m.«repeat».warp) := by ring
      _ ≤ (m.weftCount * m.«repeat».weft) * (m.warpCount * m.«repeat».warp) :=
          Nat.mul_le_mul_right _ hy
      _ = (m.warpCount * m.«repeat».warp) * (m.weftCount * m.«repeat».weft) := by ring
  rw [generateDrawdown]
  simp only [List.getElem?_map, List.getElem?_range hidx]
  have hmod : (y * (m.warpCount * m.«repeat».warp) + x) % (m.warpCount * m.«repeat».warp) = x := by
    rw [Nat.add_comm, Nat.add_mul_mod_self_right, Nat.mod_eq_of_lt hx]
  have hdiv : (y * (m.warpCount * m.«repeat».warp) + x) / (m.warpCount * m.«repeat».warp) = y := by
    rw [Nat.add_comm, Nat.add_mul_div_right _ _ hW, Nat.div_eq_of_lt hx, Nat.zero_add]
  simp [hmod, hdiv]

theorem index_lt_mul {h t H T : ℕ} (hh : h < H) (ht : t < T) :
    h * T + t < H * T := by
  calc h * T + t < h * T + T := Nat.add_lt_add_left ht _
    _ = (h + 1) * T := by ring
    _ ≤ H * T := Nat.mul_le_mul_right _ hh

/-! ## Claim C1: drawdown with repeat 1x1 and no symmetry -/

theorem drawdownCell_no_mirror (m : WeaveModel) {x y : ℕ}
    (hsw : m.symmetry.warpMirror = false) (hsf : m.symmetry.weftMirror = false)
    (hx : x < m.warpCount) (hy : y < m.weftCount)
    (hxl : x < m.threading.length) (hyl : y < m.treadling.length)
    (hidx : m.threading.get ⟨x, hxl⟩ * m.treadleCount + m.treadling.get ⟨y, hyl⟩ <
      m.tieUp.length) :
    drawdownCell m x y =
      if m.tieUp.get ⟨_, hidx⟩ ≠ 0 then 1 else 0 := by
  have hbx : x % m.warpCount = x := Nat.mod_eq_of_lt hx
  have hby : y % m.weftCount = y := Nat.mod_eq_of_lt hy
  simp only [List.get_eq_getElem] at hidx ⊢
  unfold drawdownCell
  simp only [hsw, hsf, Bool.false_eq_true, false_and, if_false, hbx, hby]
  rw [List.getElem?_eq_getElem hxl, List.getElem?_eq_getElem hyl]
  show (match m.tieUp[m.threading[x] * m.treadleCount + m.treadling[y]]? with
        | some lift => if lift ≠ 0 then 1 else 0
        | none => 0) = _
  rw [List.getElem?_eq_getElem hidx]

/-- C1: for every draft whose threading entries are all below `harnessCount`
and treadling entries all below `treadleCount`, with `repeat = {warp:1, weft:1}`
and both mirror flags false, `generateDrawdown` returns a grid of exactly
`warpCount * weftCount` cells, and the cell at `(x, y)` equals `1` exactly when
`tieUp[threading[x] * treadleCount + treadling[y]]` is nonzero, else `0`. -/
theorem generateDrawdown_identity (m : WeaveModel)
    (hrep : m.«repeat» = ⟨1, 1⟩)
    (hsym : m.symmetry = ⟨false, false⟩)
    (hthl : m.threading.length = m.warpCount)
    (htrl : m.treadling.length = m.weftCount)
    (htie : m.tieUp.length = m.harnessCount * m.treadleCount)
    (hth : ∀ v ∈ m.threading, v < m.harnessCount)
    (htr : ∀ v ∈ m.treadling, v < m.treadleCount) :
    (generateDrawdown m).length = m.warpCount * m.weftCount ∧
    ∀ x y, x < m.warpCount → y < m.weftCount →
      (generateDrawdown m)[y * m.warpCount + x]? =
        some (if m.tieUp.getD
          (m.threading.getD x 0 * m.treadleCount + m.treadling.getD y 0) 0 ≠ 0
          then 1 else 0) := by
  have hrw : m.«repeat».warp = 1 := by rw [hrep]
  have hrf : m.«repeat».weft = 1 := by rw [hrep]
  have hsw : m.symmetry.warpMirror = false := by rw [hsym]
  have hsf : m.symmetry.weftMirror = false := by rw [hsym]
  constructor
  · rw [generateDrawdown_length, hrw, hrf, Nat.mul_one, Nat.mul_one]
  · intro x y hx hy
    have hx1 : x < m.warpCount * m.«repeat».warp := by rw [hrw, Nat.mul_one]; exact hx
    have hy1 : y < m.weftCount * m.«repeat».weft := by rw [hrf, Nat.mul_one]; exact hy
    have hget := generateDrawdown_getElem? m hx1 hy1
    rw [hrw, Nat.mul_one] at hget
    rw [hget]
    have hxl : x < m.threading.length := by rw [hthl]; exact hx
    have hyl : y < m.treadling.length := by rw [htrl]; exact hy
    have hhx : m.threading.get ⟨x, hxl⟩ < m.harnessCount := by
      rw [List.get_eq_getElem]
      exact hth _ (List.getElem_mem hxl)
    have htyv : m.treadling.get ⟨y, hyl⟩ < m.treadleCount := by
      rw [List.get_eq_getElem]
      exact htr _ (List.getElem_mem hyl)
    have hidx : m.threading.get ⟨x, hxl⟩ * m.treadleCount + m.treadling.get ⟨y, hyl⟩ <
        m.tieUp.length := by
      rw [htie]; exact index_lt_mul hhx htyv
    rw [drawdownCell_no_mirror m hsw hsf hx hy hxl hyl hidx]
    have e1 : m.threading.getD x 0 = m.threading.get ⟨x, hxl⟩ := by
      rw [List.getD_eq_getElem?_getD, List.getElem?_eq_getElem hxl]; rfl
    have e2 : m.treadling.getD y 0 = m.treadling.get ⟨y, hyl⟩ := by
      rw [List.getD_eq_getElem?_getD, List.getElem?_eq_getElem hyl]; rfl
    have e3 : m.tieUp.getD
        (m.threading.getD x 0 * m.treadleCount + m.treadling.getD y 0) 0 =
        m.tieUp.get ⟨_, hidx⟩ := by
      rw [e1, e2, List.getD_eq_getElem?_getD, List.getElem?_eq_getElem hidx]; rfl
    rw [e3]

/-- Concrete 2x2 plain-weave draft used to instantiate hypotheses of the
drawdown theorems. -/
def demoModel : WeaveModel where
  warpCount := 2
  weftCount := 2
  harnessCount := 2
  treadleCount := 2
  threading := [0, 1]
  treadling := [0, 1]
  tieUp := [1, 0, 0, 1]
  warpColors := []
  weftColors := []
  «repeat» := ⟨1, 1⟩
  symmetry := ⟨false, false⟩
  loom := ⟨8, 10, 2000, 2000⟩

theorem generateDrawdown_identity_witness :
    (generateDrawdown demoModel).length = demoModel.warpCount * demoModel.weftCount ∧
    (generateDrawdown demoModel)[1 * demoModel.warpCount + 0]? =
      some (if demoModel.tieUp.getD
        (demoModel.threading.getD 0 0 * demoModel.treadleCount +
          demoModel.treadling.getD 1 0) 0 ≠ 0
        then 1 else 0) := by
  obtain ⟨h1, h2⟩ := generateDrawdown_identity demoModel rfl rfl rfl rfl rfl
    (by decide) (by decide)
  exact ⟨h1, h2 0 1 (by decide) (by decide)⟩

/-! ## Claim C2: warp mirror symmetry -/

/-- Draft used to refute the literal C2 formula: threading `[0,0,1]` makes the
base row `[1,1,0]`, whose mirrored second tile `[0,1,1]` is not a palindrome. -/
def c2Model : WeaveModel where
  warpCount := 3
  weftCount := 1
  harnessCount := 2
  treadleCount := 1
  threading := [0, 0, 1]
  treadling := [0]
  tieUp := [1, 0]
  warpColors := []
  weftColors := []
  «repeat» := ⟨2, 1⟩
  symmetry := ⟨true, false⟩
  loom := ⟨8, 10, 2000, 2000⟩

/-- Counterexample to C2 as stated: `c2Model` has `warpMirror` on,
`repeat.warp = 2` and all threading/treadling entries in range, yet the cell at
`(warpCount + 0, 0)` differs from the cell at `(2*warpCount - 1 - 0, 0)`:
the generated row is `[1,1,0,0,1,1]`, and cell 3 is `0` while cell 5 is `1`. -/
theorem warpMirror_palindrome_counterexample :
    c2Model.symmetry.warpMirror = true ∧
    c2Model.«repeat».warp = 2 ∧
    (∀ v ∈ c2Model.threading, v < c2Model.harnessCount) ∧
    (∀ v ∈ c2Model.treadling, v < c2Model.treadleCount) ∧
    (generateDrawdown c2Model)[0 * (c2Model.warpCount * 2) + (c2Model.warpCount + 0)]? ≠
      (generateDrawdown c2Model)[0 * (c2Model.warpCount * 2) + (2 * c2Model.warpCount - 1 - 0)]? := by
  refine ⟨rfl, rfl, by decide, by decide, ?_⟩
  decide

/-- C2 (amended): enabling `warpMirror` with `repeat.warp = 2` makes the
drawdown symmetric about the repeat-tile boundary: for `i < warpCount` the cell
at `(warpCount + i, y)` equals the cell at `(warpCount - 1 - i, y)` (the
reflection of `warpCount + i` across the boundary), for every row `y`.  The
claim's position `2*warpCount - 1 - i` holds only for palindromic tiles. -/
theorem generateDrawdown_warpMirror_boundary (m : WeaveModel)
    (hmir : m.symmetry.warpMirror = true)
    (hrw : m.«repeat».warp = 2)
    {i y : ℕ} (hi : i < m.warpCount) (hy : y < m.weftCount * m.«repeat».weft) :
    (generateDrawdown m)[y * (m.warpCount * 2) + (m.warpCount + i)]? =
      (generateDrawdown m)[y * (m.warpCount * 2) + (m.warpCount - 1 - i)]? := by
  have hW : 0 < m.warpCount := Nat.pos_of_ne_zero (by omega)
  have hx1 : m.warpCount + i < m.warpCount * m.«repeat».warp := by rw [hrw]; omega
  have hx2 : m.warpCount - 1 - i < m.warpCount * m.«repeat».warp := by rw [hrw]; omega
  have hg1 := generateDrawdown_getElem? m hx1 hy
  have hg2 := generateDrawdown_getElem? m hx2 hy
  rw [hrw] at hg1 hg2
  rw [hg1, hg2]
  have e1 : (m.warpCount + i) % m.warpCount = i := by
    rw [Nat.add_comm, Nat.add_mod_right, Nat.mod_eq_of_lt hi]
  have e2 : (m.warpCount + i) / m.warpCount = 1 := by
    rw [Nat.add_comm, Nat.add_div_right _ hW, Nat.div_eq_of_lt hi]
  have e3 : (m.warpCount - 1 - i) % m.warpCount = m.warpCount - 1 - i :=
    Nat.mod_eq_of_lt (by omega)
  have e4 : (m.warpCount - 1 - i) / m.warpCount = 0 := Nat.div_eq_of_lt (by omega)
  unfold drawdownCell
  simp only [hmir, e1, e2, e3, e4, true_and]
  norm_num

/-- Witness instantiating the amended C2 on `c2Model` at `i = 0`, `y = 0`. -/
theorem generateDrawdown_warpMirror_boundary_witness :
    (generateDrawdown c2Model)[0 * (c2Model.warpCount * 2) + (c2Model.warpCount + 0)]? =
      (generateDrawdown c2Model)[0 * (c2Model.warpCount * 2) + (c2Model.warpCount - 1 - 0)]? :=
  generateDrawdown_warpMirror_boundary c2Model rfl rfl (by decide) (by decide)

/-! ## Pattern generators (src/core/cad/weaveGenerators.ts) -/

/-- `applyPlainWeave`: fresh zero tie-up with the diagonal
`tieUp[i*treadleCount + i] = 1` for `i < min(harnessCount, treadleCount)`.
The in-place writes of the source become `List.set` folds (a `Uint8Array`
write out of range is a no-op, as is `List.set`). -/
def applyPlainWeave (m : WeaveModel) : WeaveModel :=
  let tieUp :=
    (List.range (Nat.min m.harnessCount m.treadleCount)).foldl
      (fun a i => a.set (i * m.treadleCount + i) 1)
      (List.replicate (m.harnessCount * m.treadleCount) 0)
  { m with tieUp := tieUp }

/-- `applyStraightDraw`: `threading[i] = i % harnessCount` for `i < warpCount`
and `treadling[i] = i % treadleCount` for `i < weftCount`, written in place. -/
def applyStraightDraw (m : WeaveModel) : WeaveModel :=
  let threading :=
    (List.range m.warpCount).foldl
      (fun a i => a.set i (i % m.harnessCount)) m.threading
  let treadling :=
    (List.range m.weftCount).foldl
      (fun a i => a.set i (i % m.treadleCount)) m.treadling
  { m with threading := threading, treadling := treadling }

theorem length_foldl_set (f : ℕ → ℕ) :
    ∀ (ix : List ℕ) (l : List ℕ),
      (ix.foldl (fun a i => a.set i (f i)) l).length = l.length := by
  intro ix
  induction ix with
  | nil => intro l; rfl
  | cons i ix ih =>
    intro l
    rw [List.foldl_cons, ih, List.length_set]

theorem getElem?_foldl_set (f : ℕ → ℕ) (n : ℕ) (l : List ℕ) (j : ℕ) :
    ((List.range n).foldl (fun a i => a.set i (f i)) l)[j]? =
      if j < n ∧ j < l.length then some (f j) else l[j]? := by
  induction n with
  | zero => simp
  | succ n ih =>
    rw [List.range_succ, List.foldl_append, List.foldl_cons, List.foldl_nil,
      List.getElem?_set, length_foldl_set]
    rcases eq_or_ne n j with h | h
    · subst h
      rw [if_pos rfl]
      by_cases hl : n < l.length
      · rw [if_pos hl, if_pos ⟨Nat.lt_succ_self n, hl⟩]
      · rw [if_neg hl, if_neg (fun hc => hl hc.2)]
        exact (List.getElem?_eq_none (by omega)).symm
    · rw [if_neg h, ih]
      split_ifs with h1 h2 <;> first | rfl | omega

/-! ## Claim C7: plain weave + straight draw -/

theorem drawdownCell_lt (m : WeaveModel) {x y : ℕ}
    (hx : x < m.warpCount) (hy : y < m.weftCount) :
    drawdownCell m x y =
      match m.threading[x]?, m.treadling[y]? with
      | some harness, some treadle =>
        match m.tieUp[harness * m.treadleCount + treadle]? with
        | some lift => if lift ≠ 0 then 1 else 0
        | none => 0
      | _, _ => 0 := by
  unfold drawdownCell
  have h1 : x / m.warpCount = 0 := Nat.div_eq_of_lt hx
  have h2 : y / m.weftCount = 0 := Nat.div_eq_of_lt hy
  simp [Nat.mod_eq_of_lt hx, Nat.mod_eq_of_lt hy, h1, h2]

/-- Model with four harnesses and treadles; the plain-weave diagonal tie-up on
a straight draw then yields a period-4 diagonal, not a checkerboard. -/
def c7Model : WeaveModel where
  warpCount := 4
  weftCount := 4
  harnessCount := 4
  treadleCount := 4
  threading := [0, 0, 0, 0]
  treadling := [0, 0, 0, 0]
  tieUp := List.replicate 16 0
  warpColors := []
  weftColors := []
  «repeat» := ⟨1, 1⟩
  symmetry := ⟨false, false⟩
  loom := ⟨8, 10, 2000, 2000⟩

/-- Counterexample to C7 as stated: on a 4-harness/4-treadle model the
plain-weave generator plus straight draw gives cell `(0,0) = 1` but cell
`(2,0) = 0`, so the drawdown is not a period-2 checkerboard (it is the
diagonal `x % 4 = y % 4`). -/
theorem plain_straight_checkerboard_counterexample :
    (generateDrawdown (applyStraightDraw (applyPlainWeave c7Model)))[0 * c7Model.warpCount + 0]? =
      some 1 ∧
    (generateDrawdown (applyStraightDraw (applyPlainWeave c7Model)))[0 * c7Model.warpCount + 2]? =
      some 0 := by
  constructor
  · decide
  · decide

/-- C7 (amended): restricted to `harnessCount = treadleCount = 2`, applying the
plain-weave tie-up generator and the straight-draw generator and deriving the
drawdown with `repeat = {1,1}` produces the period-2 checkerboard
`cell (x,y) = 1` iff `(x+y)` is even: cells two apart agree in both directions
and adjacent cells differ. -/
theorem generateDrawdown_plain_straight_checkerboard (m : WeaveModel)
    (hH : m.harnessCount = 2) (hT : m.treadleCount = 2)
    (hrep : m.«repeat» = ⟨1, 1⟩)
    (hthl : m.threading.length = m.warpCount)
    (htrl : m.treadling.length = m.weftCount) :
    (∀ x y, x < m.warpCount → y < m.weftCount →
      (generateDrawdown (applyStraightDraw (applyPlainWeave m)))[y * m.warpCount + x]? =
        some (if (x + y) % 2 = 0 then 1 else 0)) ∧
    (∀ x y, x + 2 < m.warpCount → y < m.weftCount →
      (generateDrawdown (applyStraightDraw (applyPlainWeave m)))[y * m.warpCount + x]? =
        (generateDrawdown (applyStraightDraw (applyPlainWeave m)))[y * m.warpCount + (x + 2)]?) ∧
    (∀ x y, x < m.warpCount → y + 2 < m.weftCount →
      (generateDrawdown (applyStraightDraw (applyPlainWeave m)))[y * m.warpCount + x]? =
        (generateDrawdown (applyStraightDraw (applyPlainWeave m)))[(y + 2) * m.warpCount + x]?) ∧
    (∀ x y, x + 1 < m.warpCount → y < m.weftCount →
      (generateDrawdown (applyStraightDraw (applyPlainWeave m)))[y * m.warpCount + x]? ≠
        (generateDrawdown (applyStraightDraw (applyPlainWeave m)))[y * m.warpCount + (x + 1)]?) ∧
    (∀ x y, x < m.warpCount → y + 1 < m.weftCount →
      (generateDrawdown (applyStraightDraw (applyPlainWeave m)))[y * m.warpCount + x]? ≠
        (generateDrawdown (applyStraightDraw (applyPlainWeave m)))[(y + 1) * m.warpCount + x]?) := by
  have hcell : ∀ x y, x < m.warpCount → y < m.weftCount →
      (generateDrawdown (applyStraightDraw (applyPlainWeave m)))[y * m.warpCount + x]? =
        some (if (x + y) % 2 = 0 then 1 else 0) := by
    intro x y hx hy
    have hrw : (applyStraightDraw (applyPlainWeave m)).«repeat».warp = 1 := by
      show m.«repeat».warp = 1
      rw [hrep]
    have hrf : (applyStraightDraw (applyPlainWeave m)).«repeat».weft = 1 := by
      show m.«repeat».weft = 1
      rw [hrep]
    have hx1 : x < (applyStraightDraw (applyPlainWeave m)).warpCount *
        (applyStraightDraw (applyPlainWeave m)).«repeat».warp := by
      rw [hrw, Nat.mul_one]
      exact hx
    have hy1 : y < (applyStraightDraw (applyPlainWeave m)).weftCount *
        (applyStraightDraw (applyPlainWeave m)).«repeat».weft := by
      rw [hrf, Nat.mul_one]
      exact hy
    have hget := generateDrawdown_getElem? (applyStraightDraw (applyPlainWeave m)) hx1 hy1
    rw [hrw, Nat.mul_one] at hget
    rw [show (applyStraightDraw (applyPlainWeave m)).warpCount = m.warpCount from rfl] at hget
    rw [hget, drawdownCell_lt (applyStraightDraw (applyPlainWeave m)) hx hy]
    have hMth : (applyStraightDraw (applyPlainWeave m)).threading =
        (List.range m.warpCount).foldl (fun a i => a.set i (i % m.harnessCount)) m.threading :=
      rfl
    have hMtr : (applyStraightDraw (applyPlainWeave m)).treadling =
        (List.range m.weftCount).foldl (fun a i => a.set i (i % m.treadleCount)) m.treadling :=
      rfl
    have hMtie : (applyStraightDraw (applyPlainWeave m)).tieUp = [1, 0, 0, 1] := by
      show (List.range (Nat.min m.harnessCount m.treadleCount)).foldl
          (fun a i => a.set (i * m.treadleCount + i) 1)
          (List.replicate (m.harnessCount * m.treadleCount) 0) = [1, 0, 0, 1]
      rw [hH, hT]
      rfl
    have h1 : (applyStraightDraw (applyPlainWeave m)).threading[x]? = some (x % 2) := by
      rw [hMth, getElem?_foldl_set, if_pos ⟨hx, by rw [hthl]; exact hx⟩, hH]
    have h2 : (applyStraightDraw (applyPlainWeave m)).treadling[y]? = some (y % 2) := by
      rw [hMtr, getElem?_foldl_set, if_pos ⟨hy, by rw [htrl]; exact hy⟩, hT]
    have hMT : (applyStraightDraw (applyPlainWeave m)).treadleCount = 2 := hT
    rw [h1, h2]
    show some (match (applyStraightDraw (applyPlainWeave m)).tieUp[(x % 2) *
          (applyStraightDraw (applyPlainWeave m)).treadleCount + y % 2]? with
          | some lift => if lift ≠ 0 then 1 else 0
          | none => 0) = _
    rw [hMtie, hMT]
    rcases Nat.mod_two_eq_zero_or_one x with hx2 | hx2 <;>
      rcases Nat.mod_two_eq_zero_or_one y with hy2 | hy2 <;>
      rw [hx2, hy2]
    · rw [show (x + y) % 2 = 0 from by omega]
      decide
    · rw [show (x + y) % 2 = 1 from by omega]
      decide
    · rw [show (x + y) % 2 = 1 from by omega]
      decide
    · rw [show (x + y) % 2 = 0 from by omega]
      decide
  refine ⟨hcell, ?_, ?_, ?_, ?_⟩
  · intro x y hx hy
    rw [hcell x y (by omega) hy, hcell (x + 2) y hx hy]
    have : (x + y) % 2 = (x + 2 + y) % 2 := by omega
    rw [this]
  · intro x y hx hy
    rw [hcell x y hx (by omega), hcell x (y + 2) hx hy]
    have : (x + y) % 2 = (x + (y + 2)) % 2 := by omega
    rw [this]
  · intro x y hx hy
    rw [hcell x y (by omega) hy, hcell (x + 1) y hx hy]
    rcases Nat.mod_two_eq_zero_or_one (x + y) with h | h
    · rw [h, show (x + 1 + y) % 2 = 1 from by omega]
      simp
    · rw [h, show (x + 1 + y) % 2 = 0 from by omega]
      simp
  · intro x y hx hy
    rw [hcell x y hx (by omega), hcell x (y + 1) hx hy]
    rcases Nat.mod_two_eq_zero_or_one (x + y) with h | h
    · rw [h, show (x + (y + 1)) % 2 = 1 from by omega]
      simp
    · rw [h, show (x + (y + 1)) % 2 = 0 from by omega]
      simp

/-- Witness instantiating the amended C7 on the 2x2 demo draft. -/
theorem plain_straight_checkerboard_witness :
    (generateDrawdown (applyStraightDraw (applyPlainWeave demoModel)))[0 * demoModel.warpCount + 0]? =
      some (if (0 + 0) % 2 = 0 then 1 else 0) :=
  (generateDrawdown_plain_straight_checkerboard demoModel rfl rfl rfl rfl rfl).1
    0 0 (by decide) (by decide)

/-! ## Weave validator (src/core/cad/weaveValidate.ts) -/

/-- The seven violation messages `validateWeave` can push, modelled as an
inductive carrying the data interpolated into the source's strings. -/
inductive WeaveError where
  | harnessExceeds (count max : ℕ)
  | treadleExceeds (count max : ℕ)
  | warpExceeds (count max : ℕ)
  | weftExceeds (count max : ℕ)
  | emptyTieUp
  | threadingInvalid (pos : ℕ)
  | treadlingInvalid (pos : ℕ)
deriving DecidableEq, Repr

/-- Condition of the threading loop body: `model.threading[i] >= model.harnessCount`
(false when the read is out of range, as `undefined >= n` is false). -/
def badThreadingAt (m : WeaveModel) (i : ℕ) : Bool :=
  (m.threading[i]?).any fun v => m.harnessCount ≤ v

/-- Condition of the treadling loop body. -/
def badTreadlingAt (m : WeaveModel) (i : ℕ) : Bool :=
  (m.treadling[i]?).any fun v => m.treadleCount ≤ v

def checkHarness (m : WeaveModel) : List WeaveError :=
  if m.harnessCount > m.loom.maxHarness then
    [WeaveError.harnessExceeds m.harnessCount m.loom.maxHarness] else []

def checkTreadle (m : WeaveModel) : List WeaveError :=
  if m.treadleCount > m.loom.maxTreadle then
    [WeaveError.treadleExceeds m.treadleCount m.loom.maxTreadle] else []

def checkWarp (m : WeaveModel) : List WeaveError :=
  if m.warpCount > m.loom.maxWarp then
    [WeaveError.warpExceeds m.warpCount m.loom.maxWarp] else []

def checkWeft (m : WeaveModel) : List WeaveError :=
  if m.weftCount > m.loom.maxWeft then
    [WeaveError.weftExceeds m.weftCount m.loom.maxWeft] else []

/-- Tie-up check: the source tests `model.tieUp.some(v => v === 1)` and pushes
the message when no entry equals `1` exactly. -/
def checkTieUp (m : WeaveModel) : List WeaveError :=
  if m.tieUp.any (fun v => v = 1) then [] else [WeaveError.emptyTieUp]

/-- Threading loop with `break` after the first offending position: the first
`i < warpCount` with `threading[i] >= harnessCount` yields position `i + 1`. -/
def checkThreading (m : WeaveModel) : List WeaveError :=
  match (List.range m.warpCount).find? (fun i => badThreadingAt m i) with
  | some i => [WeaveError.threadingInvalid (i + 1)]
  | none => []

def checkTreadling (m : WeaveModel) : List WeaveError :=
  match (List.range m.weftCount).find? (fun i => badTreadlingAt m i) with
  | some i => [WeaveError.treadlingInvalid (i + 1)]
  | none => []

/-- `validateWeave` (weaveValidate.ts): the seven sequential `errors.push`
blocks of the source, in program order. -/
def validateWeave (m : WeaveModel) : List WeaveError :=
  checkHarness m ++ checkTreadle m ++ checkWarp m ++ checkWeft m ++
    checkTieUp m ++ checkThreading m ++ checkTreadling m

/-- Position of each message kind in the source's fixed check order. -/
def errRank : WeaveError → ℕ
  | .harnessExceeds _ _ => 0
  | .treadleExceeds _ _ => 1
  | .warpExceeds _ _ => 2
  | .weftExceeds _ _ => 3
  | .emptyTieUp => 4
  | .threadingInvalid _ => 5
  | .treadlingInvalid _ => 6

theorem find?_range_spec {p : ℕ → Bool} {n i : ℕ}
    (h : (List.range n).find? p = some i) :
    i < n ∧ p i = true ∧ ∀ j < i, p j = false := by
  induction n with
  | zero => simp at h
  | succ n ih =>
    rw [List.range_succ, List.find?_append] at h
    cases h1 : (List.range n).find? p with
    | some j =>
      rw [h1] at h
      simp only [Option.or, Option.some.injEq] at h
      subst h
      obtain ⟨hj, hpj, hmin⟩ := ih h1
      exact ⟨by omega, hpj, hmin⟩
    | none =>
      rw [h1] at h
      simp only [Option.none_or] at h
      have hall := List.find?_eq_none.mp h1
      by_cases hp : p n
      · rw [List.find?_cons_of_pos _ hp] at h
        cases h
        refine ⟨Nat.lt_succ_self _, hp, ?_⟩
        intro j hj
        have := hall j (List.mem_range.mpr hj)
        simpa using this
      · rw [List.find?_cons_of_neg _ (by simpa using hp)] at h
        simp at h

theorem pairwise_le_one {α : Type} {R : α → α → Prop} {l : List α}
    (h : l.length ≤ 1) : l.Pairwise R := by
  match l, h with
  | [], _ => exact List.Pairwise.nil
  | [a], _ => simp

theorem mem_checkHarness {m : WeaveModel} {a : WeaveError} (h : a ∈ checkHarness m) :
    a = WeaveError.harnessExceeds m.harnessCount m.loom.maxHarness := by
  unfold checkHarness at h
  split at h <;> simp_all

theorem mem_checkTreadle {m : WeaveModel} {a : WeaveError} (h : a ∈ checkTreadle m) :
    a = WeaveError.treadleExceeds m.treadleCount m.loom.maxTreadle := by
  unfold checkTreadle at h
  split at h <;> simp_all

theorem mem_checkWarp {m : WeaveModel} {a : WeaveError} (h : a ∈ checkWarp m) :
    a = WeaveError.warpExceeds m.warpCount m.loom.maxWarp := by
  unfold checkWarp at h
  split at h <;> simp_all

theorem mem_checkWeft {m : WeaveModel} {a : WeaveError} (h : a ∈ checkWeft m) :
    a = WeaveError.weftExceeds m.weftCount m.loom.maxWeft := by
  unfold checkWeft at h
  split at h <;> simp_all

theorem mem_checkTieUp {m : WeaveModel} {a : WeaveError} (h : a ∈ checkTieUp m) :
    a = WeaveError.emptyTieUp := by
  unfold checkTieUp at h
  split at h <;> simp_all

theorem mem_checkThreading {m : WeaveModel} {a : WeaveError} (h : a ∈ checkThreading m) :
    ∃ i, (List.range m.warpCount).find? (fun i => badThreadingAt m i) = some i ∧
      a = WeaveError.threadingInvalid (i + 1) := by
  unfold checkThreading at h
  split at h
  · next i heq => exact ⟨i, heq, by simpa using h⟩
  · simp at h

theorem mem_checkTreadling {m : WeaveModel} {a : WeaveError} (h : a ∈ checkTreadling m) :
    ∃ i, (List.range m.weftCount).find? (fun i => badTreadlingAt m i) = some i ∧
      a = WeaveError.treadlingInvalid (i + 1) := by
  unfold checkTreadling at h
  split at h
  · next i heq => exact ⟨i, heq, by simpa using h⟩
  · simp at h

theorem length_checkHarness (m : WeaveModel) : (checkHarness m).length ≤ 1 := by
  unfold checkHarness
  split <;> simp

theorem length_checkTreadle (m : WeaveModel) : (checkTreadle m).length ≤ 1 := by
  unfold checkTreadle
  split <;> simp

theorem length_checkWarp (m : WeaveModel) : (checkWarp m).length ≤ 1 := by
  unfold checkWarp
  split <;> simp

theorem length_checkWeft (m : WeaveModel) : (checkWeft m).length ≤ 1 := by
  unfold checkWeft
  split <;> simp

theorem length_checkTieUp (m : WeaveModel) : (checkTieUp m).length ≤ 1 := by
  unfold checkTieUp
  split <;> simp

theorem length_checkThreading (m : WeaveModel) : (checkThreading m).length ≤ 1 := by
  unfold checkThreading
  split <;> simp

theorem length_checkTreadling (m : WeaveModel) : (checkTreadling m).length ≤ 1 := by
  unfold checkTreadling
  split <;> simp

theorem pairwise_rank_chain {l₁ l₂ : List WeaveError} {c : ℕ}
    (h1 : ∀ a ∈ l₁, errRank a = c) (hlen : l₁.length ≤ 1)
    (h2 : l₂.Pairwise (fun a b => errRank a < errRank b))
    (h3 : ∀ b ∈ l₂, c < errRank b) :
    ((l₁ ++ l₂).Pairwise (fun a b => errRank a < errRank b)) ∧
    (∀ b ∈ l₁ ++ l₂, c ≤ errRank b) := by
  constructor
  · rw [List.pairwise_append]
    exact ⟨pairwise_le_one hlen, h2, fun a ha b hb => by rw [h1 a ha]; exact h3 b hb⟩
  · intro b hb
    rcases List.mem_append.mp hb with h | h
    · rw [h1 b h]
    · exact Nat.le_of_lt (h3 b h)

theorem checkHarness_eq_nil {m : WeaveModel} :
    checkHarness m = [] ↔ m.harnessCount ≤ m.loom.maxHarness := by
  unfold checkHarness
  split <;> simp <;> omega

theorem checkTreadle_eq_nil {m : WeaveModel} :
    checkTreadle m = [] ↔ m.treadleCount ≤ m.loom.maxTreadle := by
  unfold checkTreadle
  split <;> simp <;> omega

theorem checkWarp_eq_nil {m : WeaveModel} :
    checkWarp m = [] ↔ m.warpCount ≤ m.loom.maxWarp := by
  unfold checkWarp
  split <;> simp <;> omega

theorem checkWeft_eq_nil {m : WeaveModel} :
    checkWeft m = [] ↔ m.weftCount ≤ m.loom.maxWeft := by
  unfold checkWeft
  split <;> simp <;> omega

theorem checkTieUp_eq_nil {m : WeaveModel} :
    checkTieUp m = [] ↔ m.tieUp.any (fun v => v = 1) = true := by
  unfold checkTieUp
  split <;> simp_all

theorem checkThreading_eq_nil {m : WeaveModel} :
    checkThreading m = [] ↔
      (List.range m.warpCount).find? (fun i => badThreadingAt m i) = none := by
  unfold checkThreading
  split
  · next i heq => rw [heq]; simp
  · next heq => rw [heq]; simp

theorem checkTreadling_eq_nil {m : WeaveModel} :
    checkTreadling m = [] ↔
      (List.range m.weftCount).find? (fun i => badTreadlingAt m i) = none := by
  unfold checkTreadling
  split
  · next i heq => rw [heq]; simp
  · next heq => rw [heq]; simp

/-- C9: `validateWeave` reports violations in the fixed source order
(harness, treadle, warp, weft, empty-tie-up, threading, treadling, captured by
strictly increasing `errRank`, which also forces at most one message per kind,
in particular at most one threading and one treadling violation); a threading
or treadling message names exactly the first offending position (as `i + 1`);
and the result is empty exactly when every check passes. -/
theorem validateWeave_spec (m : WeaveModel) :
    (validateWeave m).Pairwise (fun a b => errRank a < errRank b) ∧
    (∀ p, WeaveError.threadingInvalid p ∈ validateWeave m →
      1 ≤ p ∧ p - 1 < m.warpCount ∧ badThreadingAt m (p - 1) = true ∧
      ∀ j < p - 1, badThreadingAt m j = false) ∧
    (∀ p, WeaveError.treadlingInvalid p ∈ validateWeave m →
      1 ≤ p ∧ p - 1 < m.weftCount ∧ badTreadlingAt m (p - 1) = true ∧
      ∀ j < p - 1, badTreadlingAt m j = false) ∧
    (validateWeave m = [] ↔
      m.harnessCount ≤ m.loom.maxHarness ∧ m.treadleCount ≤ m.loom.maxTreadle ∧
      m.warpCount ≤ m.loom.maxWarp ∧ m.weftCount ≤ m.loom.maxWeft ∧
      (∃ v ∈ m.tieUp, v = 1) ∧
      (∀ i < m.warpCount, badThreadingAt m i = false) ∧
      (∀ i < m.weftCount, badTreadlingAt m i = false)) := by
  have hassoc : validateWeave m = checkHarness m ++ (checkTreadle m ++ (checkWarp m ++
      (checkWeft m ++ (checkTieUp m ++ (checkThreading m ++ checkTreadling m))))) := by
    simp [validateWeave, List.append_assoc]
  have r1 : ∀ a ∈ checkHarness m, errRank a = 0 := fun a ha => by
    rw [mem_checkHarness ha]; rfl
  have r2 : ∀ a ∈ checkTreadle m, errRank a = 1 := fun a ha => by
    rw [mem_checkTreadle ha]; rfl
  have r3 : ∀ a ∈ checkWarp m, errRank a = 2 := fun a ha => by
    rw [mem_checkWarp ha]; rfl
  have r4 : ∀ a ∈ checkWeft m, errRank a = 3 := fun a ha => by
    rw [mem_checkWeft ha]; rfl
  have r5 : ∀ a ∈ checkTieUp m, errRank a = 4 := fun a ha => by
    rw [mem_checkTieUp ha]; rfl
  have r6 : ∀ a ∈ checkThreading m, errRank a = 5 := fun a ha => by
    obtain ⟨i, _, hai⟩ := mem_checkThreading ha
    rw [hai]; rfl
  have r7 : ∀ a ∈ checkTreadling m, errRank a = 6 := fun a ha => by
    obtain ⟨i, _, hai⟩ := mem_checkTreadling ha
    rw [hai]; rfl
  refine ⟨?_, ?_, ?_, ?_⟩
  · have s7 : (checkTreadling m).Pairwise (fun a b => errRank a < errRank b) :=
      pairwise_le_one (length_checkTreadling m)
    have s6 := pairwise_rank_chain r6 (length_checkThreading m) s7
      (fun b hb => by rw [r7 b hb]; omega)
    have s5 := pairwise_rank_chain r5 (length_checkTieUp m) s6.1
      (fun b hb => lt_of_lt_of_le (by omega) (s6.2 b hb))
    have s4 := pairwise_rank_chain r4 (length_checkWeft m) s5.1
      (fun b hb => lt_of_lt_of_le (by omega) (s5.2 b hb))
    have s3 := pairwise_rank_chain r3 (length_checkWarp m) s4.1
      (fun b hb => lt_of_lt_of_le (by omega) (s4.2 b hb))
    have s2 := pairwise_rank_chain r2 (length_checkTreadle m) s3.1
      (fun b hb => lt_of_lt_of_le (by omega) (s3.2 b hb))
    have s1 := pairwise_rank_chain r1 (length_checkHarness m) s2.1
      (fun b hb => lt_of_lt_of_le (by omega) (s2.2 b hb))
    rw [hassoc]
    exact s1.1
  · intro p hp
    rw [hassoc] at hp
    rcases List.mem_append.mp hp with h | hp1
    · exact absurd (mem_checkHarness h) (by simp)
    rcases List.mem_append.mp hp1 with h | hp2
    · exact absurd (mem_checkTreadle h) (by simp)
    rcases List.mem_append.mp hp2 with h | hp3
    · exact absurd (mem_checkWarp h) (by simp)
    rcases List.mem_append.mp hp3 with h | hp4
    · exact absurd (mem_checkWeft h) (by simp)
    rcases List.mem_append.mp hp4 with h | hp5
    · exact absurd (mem_checkTieUp h) (by simp)
    rcases List.mem_append.mp hp5 with h | h
    · obtain ⟨i, hfind, hpi⟩ := mem_checkThreading h
      injection hpi with h'
      subst h'
      obtain ⟨hin, hbad, hmin⟩ := find?_range_spec hfind
      refine ⟨by omega, by simpa using hin, by simpa using hbad, ?_⟩
      intro j hj
      exact hmin j (by omega)
    · obtain ⟨i, _, hpi⟩ := mem_checkTreadling h
      exact absurd hpi (by simp)
  · intro p hp
    rw [hassoc] at hp
    rcases List.mem_append.mp hp with h | hp1
    · exact absurd (mem_checkHarness h) (by simp)
    rcases List.mem_append.mp hp1 with h | hp2
    · exact absurd (mem_checkTreadle h) (by simp)
    rcases List.mem_append.mp hp2 with h | hp3
    · exact absurd (mem_checkWarp h) (by simp)
    rcases List.mem_append.mp hp3 with h | hp4
    · exact absurd (mem_checkWeft h) (by simp)
    rcases List.mem_append.mp hp4 with h | hp5
    · exact absurd (mem_checkTieUp h) (by simp)
    rcases List.mem_append.mp hp5 with h | h
    · obtain ⟨i, _, hpi⟩ := mem_checkThreading h
      exact absurd hpi (by simp)
    · obtain ⟨i, hfind, hpi⟩ := mem_checkTreadling h
      injection hpi with h'
      subst h'
      obtain ⟨hin, hbad, hmin⟩ := find?_range_spec hfind
      refine ⟨by omega, by simpa using hin, by simpa using hbad, ?_⟩
      intro j hj
      exact hmin j (by omega)
  · rw [hassoc]
    simp only [List.append_eq_nil]
    rw [checkHarness_eq_nil, checkTreadle_eq_nil, checkWarp_eq_nil, checkWeft_eq_nil,
      checkTieUp_eq_nil, checkThreading_eq_nil, checkTreadling_eq_nil,
      List.find?_eq_none, List.find?_eq_none]
    simp only [List.any_eq_true, decide_eq_true_eq, List.mem_range, Bool.not_eq_true]

/-- Validator instance with an out-of-range threading entry, used to witness
the first-offending-position clause of the C9 theorem. -/
def c9Model : WeaveModel where
  warpCount := 2
  weftCount := 1
  harnessCount := 2
  treadleCount := 1
  threading := [0, 5]
  treadling := [0]
  tieUp := [1, 0]
  warpColors := []
  weftColors := []
  «repeat» := ⟨1, 1⟩
  symmetry := ⟨false, false⟩
  loom := ⟨8, 10, 2000, 2000⟩

/-- Witness instantiating the C9 theorem: `c9Model`'s only bad threading entry
is at index 1, so the reported position is 2 and the theorem's conclusions
evaluate there. -/
theorem validateWeave_spec_witness :
    1 ≤ 2 ∧ 2 - 1 < c9Model.warpCount ∧ badThreadingAt c9Model (2 - 1) = true ∧
      ∀ j < 2 - 1, badThreadingAt c9Model j = false :=
  (validateWeave_spec c9Model).2.1 2 (by decide)

/-! ## Imaging data model (src/core/imaging/quantizeKMeans.ts) -/

/-- RGB triple; components are byte values in buffers, but the type itself
(as in the source) does not restrict the range. -/
structure RGB where
  r : ℕ
  g : ℕ
  b : ℕ
deriving DecidableEq, Repr

/-- `ImageData`: width, height and the interleaved RGBA byte buffer.  The
platform guarantees `data.length = 4 * width * height`; theorems carry that
shape as a hypothesis where needed. -/
structure ImageDataL where
  width : ℕ
  height : ℕ
  data : List ℕ
deriving DecidableEq, Repr

/-- `QuantizeOptions` of quantizeKMeans.ts (`k`, optional `maxIters`,
optional `sampleStride`). -/
structure QuantizeOptions where
  k : ℕ
  maxIters : Option ℕ
  sampleStride : Option ℕ
deriving DecidableEq, Repr

/-- `QuantizeResult` of quantizeKMeans.ts. -/
structure QuantizeResult where
  width : ℕ
  height : ℕ
  quantized : List ℕ
  palette : List RGB
  counts : List ℕ
deriving DecidableEq, Repr

/-- `clampByte`: `Math.max(0, Math.min(255, Math.round(n)))`.  `Math.round`
rounds half toward positive infinity, which is Mathlib's `round`. -/
def clampByte (q : ℚ) : ℕ :=
  (max 0 (min 255 (round q))).toNat

/-- `dist2` on byte-valued RGB: squared Euclidean distance (exact in `ℤ`). -/
def dist2 (a b : RGB) : ℤ :=
  ((a.r : ℤ) - b.r) * ((a.r : ℤ) - b.r) + ((a.g : ℤ) - b.g) * ((a.g : ℤ) - b.g) +
    ((a.b : ℤ) - b.b) * ((a.b : ℤ) - b.b)

/-- `dist2` between an integer centroid and an unclamped rational mean, used
by the movement test of the k-means loop. -/
def dist2q (a : RGB) (nr ng nb : ℚ) : ℚ :=
  ((a.r : ℚ) - nr) * ((a.r : ℚ) - nr) + ((a.g : ℚ) - ng) * ((a.g : ℚ) - ng) +
    ((a.b : ℚ) - nb) * ((a.b : ℚ) - nb)

/-- Loop of `nearestCentroidIndex` after the first iteration: carries the
running best index and best distance; the strict `<` keeps the earlier
centroid on ties, as in the source. -/
def nearestAux (p : RGB) : List RGB → ℕ → ℤ → ℕ → ℕ
  | [], _, _, best => best
  | c :: rest, i, bestD, best =>
    let d := dist2 p c
    if d < bestD then nearestAux p rest (i + 1) d i
    else nearestAux p rest (i + 1) bestD best

/-- `nearestCentroidIndex`: `bestD` starts at `+Infinity`, so the first
centroid always replaces the initial state; on the empty list the initial
`best = 0` is returned (the source never calls it with an empty list). -/
def nearestCentroidIndex (p : RGB) (cents : List RGB) : ℕ :=
  match cents with
  | [] => 0
  | c :: rest => nearestAux p rest 1 (dist2 p c) 0

theorem nearestAux_lt (p : RGB) :
    ∀ (l : List RGB) (i : ℕ) (bD : ℤ) (best k : ℕ),
      best < k → i + l.length ≤ k → nearestAux p l i bD best < k := by
  intro l
  induction l with
  | nil =>
    intro i bD best k h1 _
    simpa [nearestAux] using h1
  | cons c rest ih =>
    intro i bD best k h1 h2
    simp only [List.length_cons] at h2
    unfold nearestAux
    dsimp only
    split
    · exact ih (i + 1) _ i k (by omega) (by omega)
    · exact ih (i + 1) bD best k h1 (by omega)

theorem nearestCentroidIndex_lt (p : RGB) {cents : List RGB} (h : cents ≠ []) :
    nearestCentroidIndex p cents < cents.length := by
  match cents, h with
  | c :: rest, _ =>
    show nearestAux p rest 1 (dist2 p c) 0 < (c :: rest).length
    exact nearestAux_lt p rest 1 _ 0 _ (by simp) (by simp [Nat.add_comm])

/-- Indices `0, step, 2*step, ...` below `len` visited by a
`for (i = 0; i < len; i += step)` loop (for `step > 0`). -/
def sampleIndices (len step : ℕ) : List ℕ :=
  (List.range ((len + step - 1) / step)).map (· * step)

/-- Sample collection of `quantizeKMeans` step 1: every `4*stride`-th byte
offset; a pixel whose alpha is below 20 is skipped.  The `none` arm for an
out-of-range alpha read cannot fire on an `ImageData` buffer, whose length is
a multiple of 4. -/
def collectSamples (stride : ℕ) (data : List ℕ) : List RGB :=
  (sampleIndices data.length (4 * stride)).filterMap fun i =>
    match data[i + 3]? with
    | some a =>
      if a < 20 then none
      else some ⟨data.getD i 0, data.getD (i + 1) 0, data.getD (i + 2) 0⟩
    | none => none

/-- In-place accumulator write `arr[idx] += v` on a `List ℕ`. -/
def bump (l : List ℕ) (i v : ℕ) : List ℕ :=
  l.set i (l.getD i 0 + v)

/-- Assignment pass of one k-means iteration: per-centroid component sums and
sample counts (`sumR/sumG/sumB/count` in the source). -/
def assignSums (cents samples : List RGB) : List ℕ × List ℕ × List ℕ × List ℕ :=
  samples.foldl
    (fun acc p =>
      let idx := nearestCentroidIndex p cents
      (bump acc.1 idx p.r, bump acc.2.1 idx p.g, bump acc.2.2.1 idx p.b,
        bump acc.2.2.2 idx 1))
    (List.replicate cents.length 0, List.replicate cents.length 0,
      List.replicate cents.length 0, List.replicate cents.length 0)

/-- One k-means iteration: recompute means (keeping a centroid with no
assigned samples), count how many centroids moved by squared distance `> 5`,
then clamp every component back to a byte.  Returns the clamped next
centroids and the `moved` counter. -/
def iterOnce (samples cents : List RGB) : List RGB × ℕ :=
  let s := assignSums cents samples
  let next : List (ℚ × ℚ × ℚ) := (List.range cents.length).map fun i =>
    let c := cents.getD i ⟨0, 0, 0⟩
    if s.2.2.2.getD i 0 = 0 then ((c.r : ℚ), (c.g : ℚ), (c.b : ℚ))
    else ((s.1.getD i 0 : ℚ) / (s.2.2.2.getD i 0 : ℚ),
          (s.2.1.getD i 0 : ℚ) / (s.2.2.2.getD i 0 : ℚ),
          (s.2.2.1.getD i 0 : ℚ) / (s.2.2.2.getD i 0 : ℚ))
  let moved := ((List.range cents.length).filter fun i =>
    let c := cents.getD i ⟨0, 0, 0⟩
    let nc := next.getD i (0, 0, 0)
    s.2.2.2.getD i 0 ≠ 0 ∧ dist2q c nc.1 nc.2.1 nc.2.2 > 5).length
  (next.map fun nc => ⟨clampByte nc.1, clampByte nc.2.1, clampByte nc.2.2⟩, moved)

/-- The k-means loop (`for iter < maxIters`), stopping early once no centroid
moved; the clamped centroids of the last executed iteration are kept. -/
def kmeansLoop (samples : List RGB) : ℕ → List RGB → List RGB
  | 0, cents => cents
  | n + 1, cents =>
    let r := iterOnce samples cents
    if r.2 = 0 then r.1 else kmeansLoop samples n r.1

/-- Step 4 of `quantizeKMeans`: rewrite every pixel.  Alpha below 20 becomes
`(0,0,0,0)`; otherwise the nearest centroid's RGB at alpha 255, bumping that
centroid's count.  The fallthrough arm only concerns buffers whose length is
not a multiple of 4, which `ImageData` excludes. -/
def quantApply (cents : List RGB) : List ℕ → List ℕ → List ℕ × List ℕ
  | r :: g :: b :: a :: rest, counts =>
    if a < 20 then
      let res := quantApply cents rest counts
      (0 :: 0 :: 0 :: 0 :: res.1, res.2)
    else
      let idx := nearestCentroidIndex ⟨r, g, b⟩ cents
      let c := cents.getD idx ⟨0, 0, 0⟩
      let res := quantApply cents rest (bump counts idx 1)
      (c.r :: c.g :: c.b :: 255 :: res.1, res.2)
  | rest, counts => (rest, counts)

/-- `quantizeKMeans`.  The randomized `pickInitialCentroids` is modelled by
the explicit parameter `initC`; the source guarantees exactly that `initC`
has length `k` (after clamping) and that every entry is a copy of some
sample, which the theorems below take as hypotheses.  On an empty sample
list the source returns the input buffer unchanged with the degenerate
single-entry palette, before ever picking centroids. -/
def quantizeKMeans (initC : List RGB) (img : ImageDataL) (opts : QuantizeOptions) :
    QuantizeResult :=
  let k := max 2 (min 24 opts.k)
  let maxIters := opts.maxIters.getD 12
  let stride := opts.sampleStride.getD 5
  let samples := collectSamples stride img.data
  if samples = [] then
    { width := img.width, height := img.height, quantized := img.data,
      palette := [⟨0, 0, 0⟩], counts := [img.width * img.height] }
  else
    let cents := kmeansLoop samples maxIters initC
    let res := quantApply cents img.data (List.replicate k 0)
    { width := img.width, height := img.height, quantized := res.1,
      palette := cents, counts := res.2 }

/-! ## Claim C6: fully transparent raster -/

theorem collectSamples_eq_nil {stride : ℕ} {data : List ℕ}
    (halpha : ∀ i < data.length, i % 4 = 3 → data.getD i 0 < 20) :
    collectSamples stride data = [] := by
  unfold collectSamples
  rw [List.filterMap_eq_nil_iff]
  intro i hi
  obtain ⟨t, _, hti⟩ := List.mem_map.mp hi
  cases hv : data[i + 3]? with
  | none => rfl
  | some a =>
    have hlt : i + 3 < data.length := by
      rcases List.getElem?_eq_some.mp hv with ⟨h, _⟩
      exact h
    have hmod : (i + 3) % 4 = 3 := by
      have : i = 4 * (t * stride) := by rw [← hti]; ring
      omega
    have ha : a < 20 := by
      have := halpha (i + 3) hlt hmod
      rw [List.getD_eq_getElem?_getD, hv] at this
      exact this
    simp [ha]

/-- C6: on a raster in which every pixel alpha (every byte at offset
`3 mod 4`) is below 20, `quantizeKMeans` takes the degenerate branch (the
sample set is empty) and returns exactly the single palette entry `(0,0,0)`
with a single count equal to `width * height`, with no error (the embedding
is total). -/
theorem quantizeKMeans_fullyTransparent (initC : List RGB) (img : ImageDataL)
    (opts : QuantizeOptions)
    (halpha : ∀ i < img.data.length, i % 4 = 3 → img.data.getD i 0 < 20) :
    (quantizeKMeans initC img opts).palette = [⟨0, 0, 0⟩] ∧
    (quantizeKMeans initC img opts).counts = [img.width * img.height] := by
  have hs : collectSamples (opts.sampleStride.getD 5) img.data = [] :=
    collectSamples_eq_nil halpha
  unfold quantizeKMeans
  simp [hs]

/-- Witness for C6: a fully transparent 10x10 raster (all bytes zero). -/
theorem quantizeKMeans_fullyTransparent_witness :
    (quantizeKMeans [] ⟨10, 10, List.replicate 400 0⟩ ⟨2, none, none⟩).palette =
      [⟨0, 0, 0⟩] ∧
    (quantizeKMeans [] ⟨10, 10, List.replicate 400 0⟩ ⟨2, none, none⟩).counts =
      [10 * 10] := by
  have h := quantizeKMeans_fullyTransparent [] ⟨10, 10, List.replicate 400 0⟩ ⟨2, none, none⟩
    (by
      intro i hi hmod
      rw [List.getD_eq_getElem?_getD]
      simp only [List.length_replicate] at hi
      rw [List.getElem?_replicate, if_pos hi]
      decide)
  exact h

/-! ## Claim C10: quantizer output invariant -/

/-- Induction along the 4-byte pixel chunks of an RGBA buffer. -/
theorem chunk4_induction {motive : List ℕ → Prop}
    (h4 : ∀ r g b a rest, motive rest → motive (r :: g :: b :: a :: rest))
    (hshort : ∀ l, l.length ≤ 3 → motive l) :
    ∀ l, motive l
  | r :: g :: b :: a :: rest =>
    h4 r g b a rest (chunk4_induction h4 hshort rest)
  | [] => hshort [] (by simp)
  | [x] => hshort [x] (by simp)
  | [x, y] => hshort [x, y] (by simp)
  | [x, y, z] => hshort [x, y, z] (by simp)

theorem getD_cons4 (r g b a d n : ℕ) (l : List ℕ) :
    (r :: g :: b :: a :: l).getD (n + 4) d = l.getD n d := by
  have h1 : n + 4 = (n + 3) + 1 := by omega
  rw [h1, List.getD_cons_succ]
  have h2 : n + 3 = (n + 2) + 1 := by omega
  rw [h2, List.getD_cons_succ]
  have h3 : n + 2 = (n + 1) + 1 := by omega
  rw [h3, List.getD_cons_succ, List.getD_cons_succ]

theorem clampByte_le (q : ℚ) : clampByte q ≤ 255 := by
  unfold clampByte
  have h2 : (0 : ℤ) ≤ max 0 (min 255 (round q)) := le_max_left _ _
  have h3 : max 0 (min 255 (round q)) ≤ 255 :=
    max_le (by norm_num) (min_le_left _ _)
  omega

theorem getD_le_255 {data : List ℕ} (hb : ∀ v ∈ data, v < 256) (j : ℕ) :
    data.getD j 0 ≤ 255 := by
  rcases Nat.lt_or_ge j data.length with h | h
  · rw [List.getD_eq_getElem?_getD, List.getElem?_eq_getElem h]
    have := hb _ (List.getElem_mem h)
    simp only [Option.getD_some]
    omega
  · rw [List.getD_eq_getElem?_getD, List.getElem?_eq_none h]
    simp

theorem collectSamples_le {stride : ℕ} {data : List ℕ}
    (hb : ∀ v ∈ data, v < 256) :
    ∀ s ∈ collectSamples stride data, s.r ≤ 255 ∧ s.g ≤ 255 ∧ s.b ≤ 255 := by
  intro s hs
  unfold collectSamples at hs
  rw [List.mem_filterMap] at hs
  obtain ⟨i, _, hf⟩ := hs
  split at hf
  · split at hf
    · simp at hf
    · injection hf with h
      subst h
      exact ⟨getD_le_255 hb _, getD_le_255 hb _, getD_le_255 hb _⟩
  · simp at hf

theorem iterOnce_length (samples cents : List RGB) :
    (iterOnce samples cents).1.length = cents.length := by
  simp [iterOnce]

theorem iterOnce_le (samples cents : List RGB) :
    ∀ c ∈ (iterOnce samples cents).1, c.r ≤ 255 ∧ c.g ≤ 255 ∧ c.b ≤ 255 := by
  intro c hc
  simp only [iterOnce, List.mem_map] at hc
  obtain ⟨nc, _, rfl⟩ := hc
  exact ⟨clampByte_le _, clampByte_le _, clampByte_le _⟩

theorem kmeansLoop_length (samples : List RGB) :
    ∀ (n : ℕ) (cents : List RGB), (kmeansLoop samples n cents).length = cents.length := by
  intro n
  induction n with
  | zero => intro cents; rfl
  | succ n ih =>
    intro cents
    unfold kmeansLoop
    dsimp only
    split
    · exact iterOnce_length samples cents
    · rw [ih, iterOnce_length]

theorem kmeansLoop_le (samples : List RGB) :
    ∀ (n : ℕ) (cents : List RGB),
      (∀ c ∈ cents, c.r ≤ 255 ∧ c.g ≤ 255 ∧ c.b ≤ 255) →
      ∀ c ∈ kmeansLoop samples n cents, c.r ≤ 255 ∧ c.g ≤ 255 ∧ c.b ≤ 255 := by
  intro n
  induction n with
  | zero =>
    intro cents h
    exact h
  | succ n ih =>
    intro cents h c hc
    unfold kmeansLoop at hc
    dsimp only at hc
    split at hc
    · exact iterOnce_le samples cents c hc
    · exact ih _ (iterOnce_le samples cents) c hc

theorem quantApply_length (cents : List RGB) :
    ∀ data, ∀ counts : List ℕ, (quantApply cents data counts).1.length = data.length := by
  intro data
  induction data using chunk4_induction with
  | h4 r g b a rest ih =>
    intro counts
    by_cases ha : a < 20
    · simp only [quantApply, if_pos ha, List.length_cons]
      rw [ih]
    · simp only [quantApply, if_neg ha, List.length_cons]
      rw [ih]
  | hshort l hl =>
    intro counts
    rcases l with _ | ⟨x, _ | ⟨y, _ | ⟨z, _ | ⟨w, l⟩⟩⟩⟩
    · rfl
    · rfl
    · rfl
    · rfl
    · simp at hl

theorem quantApply_pixels (cents : List RGB) (hc : cents ≠ []) :
    ∀ data, ∀ (counts : List ℕ) (p : ℕ), 4 * p + 3 < data.length →
      (data.getD (4 * p + 3) 0 < 20 →
        (quantApply cents data counts).1.getD (4 * p) 0 = 0 ∧
        (quantApply cents data counts).1.getD (4 * p + 1) 0 = 0 ∧
        (quantApply cents data counts).1.getD (4 * p + 2) 0 = 0 ∧
        (quantApply cents data counts).1.getD (4 * p + 3) 0 = 0) ∧
      (20 ≤ data.getD (4 * p + 3) 0 →
        ∃ c ∈ cents,
          (quantApply cents data counts).1.getD (4 * p) 0 = c.r ∧
          (quantApply cents data counts).1.getD (4 * p + 1) 0 = c.g ∧
          (quantApply cents data counts).1.getD (4 * p + 2) 0 = c.b ∧
          (quantApply cents data counts).1.getD (4 * p + 3) 0 = 255) := by
  intro data
  induction data using chunk4_induction with
  | h4 r g b a rest ih =>
    intro counts p hp
    rcases p with _ | q
    · by_cases ha : a < 20
      · simp only [quantApply, if_pos ha]
        constructor
        · intro _
          refine ⟨rfl, rfl, rfl, rfl⟩
        · intro h20
          simp only [Nat.mul_zero, Nat.zero_add] at h20
          rw [List.getD_cons_succ, List.getD_cons_succ, List.getD_cons_succ,
            List.getD_cons_zero] at h20
          omega
      · simp only [quantApply, if_neg ha]
        constructor
        · intro h20
          simp only [Nat.mul_zero, Nat.zero_add] at h20
          rw [List.getD_cons_succ, List.getD_cons_succ, List.getD_cons_succ,
            List.getD_cons_zero] at h20
          omega
        · intro _
          refine ⟨cents.getD (nearestCentroidIndex ⟨r, g, b⟩ cents) ⟨0, 0, 0⟩, ?_, by
            simp, by simp, by simp, by simp⟩
          have hlt := nearestCentroidIndex_lt (⟨r, g, b⟩ : RGB) hc
          rw [List.getD_eq_getElem?_getD, List.getElem?_eq_getElem hlt]
          exact List.getElem_mem hlt
    · have hp4 : 4 * q + 3 < rest.length := by
        simp only [List.length_cons] at hp
        omega
      have e3 : 4 * (q + 1) + 3 = (4 * q + 3) + 4 := by ring
      have e2 : 4 * (q + 1) + 2 = (4 * q + 2) + 4 := by ring
      have e1 : 4 * (q + 1) + 1 = (4 * q + 1) + 4 := by ring
      have e0 : 4 * (q + 1) = (4 * q) + 4 := by ring
      rw [e3, e2, e1, e0]
      by_cases ha : a < 20
      · simp only [quantApply, if_pos ha, getD_cons4]
        exact ih counts q hp4
      · simp only [quantApply, if_neg ha, getD_cons4]
        exact ih (bump counts (nearestCentroidIndex ⟨r, g, b⟩ cents) 1) q hp4
  | hshort l hl =>
    intro counts p hp
    omega

/-- Counterexample to C10 as stated: on the 1x1 raster `(5,6,7,10)` the input
alpha `10` is below 20, so the claim requires the output pixel `(0,0,0,0)`;
but no sampled pixel is opaque, the sample set is empty, and `quantizeKMeans`
returns the input bytes unchanged through the degenerate branch. -/
theorem quantize_transparent_passthrough_counterexample :
    ([5, 6, 7, 10] : List ℕ).getD 3 0 < 20 ∧
    (quantizeKMeans [] ⟨1, 1, [5, 6, 7, 10]⟩ ⟨2, none, none⟩).quantized = [5, 6, 7, 10] ∧
    ([5, 6, 7, 10] : List ℕ) ≠ [0, 0, 0, 0] :=
  ⟨by decide, by decide, by decide⟩

/-- C10 (amended): whenever the sampling pass finds at least one opaque pixel
(the sample set is nonempty — otherwise the degenerate branch returns the
input raster unchanged), the quantizer output satisfies the invariant: each
palette component is a byte in `[0, 255]`, the output buffer has the input's
length, every output pixel whose input alpha was below 20 is `(0,0,0,0)`, and
every other output pixel carries some palette entry's RGB at alpha 255.  The
parameter `initC` stands for the randomized initial centroids, constrained
exactly as `pickInitialCentroids` guarantees on a nonempty sample list. -/
theorem quantizeKMeans_output_invariant (initC : List RGB) (img : ImageDataL)
    (opts : QuantizeOptions)
    (hbytes : ∀ v ∈ img.data, v < 256)
    (hinit : ∀ c ∈ initC, c ∈ collectSamples (opts.sampleStride.getD 5) img.data)
    (hne : collectSamples (opts.sampleStride.getD 5) img.data ≠ [])
    (hkinit : initC.length = max 2 (min 24 opts.k)) :
    (∀ c ∈ (quantizeKMeans initC img opts).palette,
      c.r ≤ 255 ∧ c.g ≤ 255 ∧ c.b ≤ 255) ∧
    (quantizeKMeans initC img opts).quantized.length = img.data.length ∧
    (∀ p, 4 * p + 3 < img.data.length →
      (img.data.getD (4 * p + 3) 0 < 20 →
        (quantizeKMeans initC img opts).quantized.getD (4 * p) 0 = 0 ∧
        (quantizeKMeans initC img opts).quantized.getD (4 * p + 1) 0 = 0 ∧
        (quantizeKMeans initC img opts).quantized.getD (4 * p + 2) 0 = 0 ∧
        (quantizeKMeans initC img opts).quantized.getD (4 * p + 3) 0 = 0) ∧
      (20 ≤ img.data.getD (4 * p + 3) 0 →
        ∃ c ∈ (quantizeKMeans initC img opts).palette,
          (quantizeKMeans initC img opts).quantized.getD (4 * p) 0 = c.r ∧
          (quantizeKMeans initC img opts).quantized.getD (4 * p + 1) 0 = c.g ∧
          (quantizeKMeans initC img opts).quantized.getD (4 * p + 2) 0 = c.b ∧
          (quantizeKMeans initC img opts).quantized.getD (4 * p + 3) 0 = 255)) := by
  have hq : quantizeKMeans initC img opts =
      { width := img.width, height := img.height,
        quantized := (quantApply
          (kmeansLoop (collectSamples (opts.sampleStride.getD 5) img.data)
            (opts.maxIters.getD 12) initC)
          img.data (List.replicate (max 2 (min 24 opts.k)) 0)).1,
        palette := kmeansLoop (collectSamples (opts.sampleStride.getD 5) img.data)
          (opts.maxIters.getD 12) initC,
        counts := (quantApply
          (kmeansLoop (collectSamples (opts.sampleStride.getD 5) img.data)
            (opts.maxIters.getD 12) initC)
          img.data (List.replicate (max 2 (min 24 opts.k)) 0)).2 } := by
    simp only [quantizeKMeans]
    rw [if_neg hne]
  have hclen : (kmeansLoop (collectSamples (opts.sampleStride.getD 5) img.data)
      (opts.maxIters.getD 12) initC).length = initC.length :=
    kmeansLoop_length _ _ _
  have hcne : kmeansLoop (collectSamples (opts.sampleStride.getD 5) img.data)
      (opts.maxIters.getD 12) initC ≠ [] := by
    intro h
    rw [h] at hclen
    simp only [List.length_nil] at hclen
    omega
  have hcle : ∀ c ∈ kmeansLoop (collectSamples (opts.sampleStride.getD 5) img.data)
      (opts.maxIters.getD 12) initC, c.r ≤ 255 ∧ c.g ≤ 255 ∧ c.b ≤ 255 :=
    kmeansLoop_le _ _ initC
      (fun c hcc => collectSamples_le hbytes c (hinit c hcc))
  rw [hq]
  refine ⟨hcle, quantApply_length _ _ _, ?_⟩
  intro p hp
  exact quantApply_pixels _ hcne img.data _ p hp

/-- Witness instantiating the amended C10 on a 1x1 opaque raster with the two
initial centroids both equal to its only sample. -/
theorem quantizeKMeans_output_invariant_witness :
    (quantizeKMeans [⟨10, 20, 30⟩, ⟨10, 20, 30⟩] ⟨1, 1, [10, 20, 30, 255]⟩
      ⟨2, none, none⟩).quantized.length = ([10, 20, 30, 255] : List ℕ).length :=
  (quantizeKMeans_output_invariant [⟨10, 20, 30⟩, ⟨10, 20, 30⟩]
    ⟨1, 1, [10, 20, 30, 255]⟩ ⟨2, none, none⟩
    (by decide) (by decide) (by decide) (by decide)).2.1

/-! ## Claim C3: reported palette order (src/core/imaging/reduceColors.ts) -/

/-- One entry of the reported palette.  The source stores the hex string of
the RGB triple; hex formatting is a bijective rendering, modelled by keeping
the RGB triple itself. -/
structure ReducedColor where
  color : RGB
  count : ℕ
  percent : ℚ
deriving DecidableEq, Repr

/-- `ReductionResult` (src/types/production.ts) without the external
PNG/data-URL encoding. -/
structure ReductionResult where
  width : ℕ
  height : ℕ
  colors : List ReducedColor
  colorCount : ℕ
deriving DecidableEq, Repr

/-- Coverage reporting of `reduceColorsMainThread`: map each palette index to
its entry with count and percentage, drop zero counts, then sort by the
comparator `(a, b) => b.count - a.count` (a stable descending sort, modelled
by `mergeSort` with `b.count ≤ a.count`). -/
def reportColors (palette : List RGB) (counts : List ℕ) : List ReducedColor :=
  let total : ℕ := counts.foldl (· + ·) 0
  (((List.range palette.length).map fun idx =>
      ({ color := palette.getD idx ⟨0, 0, 0⟩,
         count := counts.getD idx 0,
         percent := if total = 0 then 0
           else ((counts.getD idx 0 : ℚ) / (total : ℚ)) * 100 } : ReducedColor)).filter
    fun c => 0 < c.count).mergeSort fun a b => b.count ≤ a.count

/-- `reduceColorsMainThread`: quantize with `maxIters = 12`,
`sampleStride = 5`, then report coverage.  The data-URL decoding/encoding at
the boundary is external; `initC` models the quantizer's random
initialization as in `quantizeKMeans`. -/
def reduceColorsMainThread (initC : List RGB) (img : ImageDataL) (k : ℕ) :
    ReductionResult :=
  let q := quantizeKMeans initC img ⟨k, some 12, some 5⟩
  let colors := reportColors q.palette q.counts
  { width := q.width, height := q.height, colors := colors,
    colorCount := colors.length }

theorem mergeSort_count_sorted (l : List ReducedColor) :
    (l.mergeSort fun a b => b.count ≤ a.count).Pairwise
      (fun a b => b.count ≤ a.count) := by
  have h := @List.sorted_mergeSort ReducedColor
    (fun a b => decide (b.count ≤ a.count))
    (by
      intro a b c hab hbc
      simp only [decide_eq_true_eq] at hab hbc ⊢
      omega)
    (by
      intro a b
      simp only [Bool.or_eq_true, decide_eq_true_eq]
      omega)
    l
  exact h.imp (by intro a b hab; simpa using hab)

theorem reportColors_sorted (palette : List RGB) (counts : List ℕ) :
    (reportColors palette counts).Pairwise (fun a b => b.count ≤ a.count) ∧
    ∀ e ∈ reportColors palette counts, 0 < e.count := by
  constructor
  · exact mergeSort_count_sorted _
  · intro e he
    simp only [reportColors] at he
    rw [List.Perm.mem_iff (List.mergeSort_perm _ _)] at he
    have := (List.mem_filter.mp he).2
    simpa using this

/-- C3: the reported palette of the reduce-colors pipeline is ordered by
non-increasing per-entry full-image pixel coverage (each entry's count is at
least the next entry's), and no reported entry has a zero coverage count —
a centroid with no assigned full-image pixels is filtered out of the report,
for every raster, `k`, and centroid initialization. -/
theorem reduceColors_palette_sorted (initC : List RGB) (img : ImageDataL) (k : ℕ) :
    ((reduceColorsMainThread initC img k).colors).Pairwise
      (fun a b => b.count ≤ a.count) ∧
    ∀ e ∈ (reduceColorsMainThread initC img k).colors, 0 < e.count := by
  simp only [reduceColorsMainThread]
  exact reportColors_sorted _ _

/-! ## Claim C8: exact-match color merge (src/core/imaging/reduceColors.ts) -/

/-- Pixel loop of `mergeColorInImage`: skip alpha below 20; on an exact RGB
match with `cFrom` write `cTo`'s RGB at alpha 255 and count the pixel.
A trailing partial chunk (only possible on malformed buffers) is left
unchanged, as in the source. -/
def mergeLoop (cFrom cTo : RGB) : List ℕ → List ℕ × ℕ
  | r :: g :: b :: a :: rest =>
    let res := mergeLoop cFrom cTo rest
    if a < 20 then (r :: g :: b :: a :: res.1, res.2)
    else if r = cFrom.r ∧ g = cFrom.g ∧ b = cFrom.b then
      (cTo.r :: cTo.g :: cTo.b :: 255 :: res.1, res.2 + 1)
    else (r :: g :: b :: a :: res.1, res.2)
  | rest => (rest, 0)

/-- `mergeColorInImage` on a decoded raster: the `fromHex`/`toHex` strings are
parsed to RGB at the boundary (`hexToRgb`); returns the merged raster and
`changedPixels`. -/
def mergeColorInImage (cFrom cTo : RGB) (img : ImageDataL) : ImageDataL × ℕ :=
  let res := mergeLoop cFrom cTo img.data
  ({ img with data := res.1 }, res.2)

/-- Specification predicate: some pixel chunk is opaque (alpha at least 20)
with RGB exactly `c`. -/
def hasOpaqueColor (c : RGB) : List ℕ → Bool
  | r :: g :: b :: a :: rest =>
    (20 ≤ a ∧ r = c.r ∧ g = c.g ∧ b = c.b) || hasOpaqueColor c rest
  | _ => false

theorem mergeLoop_idem (cFrom cTo : RGB) :
    ∀ d, (mergeLoop cFrom cTo (mergeLoop cFrom cTo d).1).1 =
      (mergeLoop cFrom cTo d).1 := by
  intro d
  induction d using chunk4_induction with
  | h4 r g b a rest ih =>
    by_cases ha : a < 20
    · simp [mergeLoop, ha, ih]
    · by_cases hm : r = cFrom.r ∧ g = cFrom.g ∧ b = cFrom.b
      · by_cases h2 : cTo.r = cFrom.r ∧ cTo.g = cFrom.g ∧ cTo.b = cFrom.b
        · simp [mergeLoop, ha, hm, h2, ih]
        · simp [mergeLoop, ha, hm, h2, ih]
      · simp [mergeLoop, ha, hm, ih]
  | hshort l hl =>
    rcases l with _ | ⟨x, _ | ⟨y, _ | ⟨z, _ | ⟨w, l⟩⟩⟩⟩
    · rfl
    · rfl
    · rfl
    · rfl
    · simp at hl

theorem mergeLoop_no_from (cFrom cTo : RGB) (hne : cFrom ≠ cTo) :
    ∀ d, hasOpaqueColor cFrom (mergeLoop cFrom cTo d).1 = false := by
  intro d
  induction d using chunk4_induction with
  | h4 r g b a rest ih =>
    by_cases ha : a < 20
    · have ha' : ¬ 20 ≤ a := by omega
      simp [mergeLoop, hasOpaqueColor, ha, ha', ih]
    · by_cases hm : r = cFrom.r ∧ g = cFrom.g ∧ b = cFrom.b
      · have h2 : ¬(cTo.r = cFrom.r ∧ cTo.g = cFrom.g ∧ cTo.b = cFrom.b) := by
          intro h
          exact hne (by cases cFrom; cases cTo; simp_all)
        simp [mergeLoop, hasOpaqueColor, ha, hm, h2, ih]
      · have h3 : ¬(20 ≤ a ∧ r = cFrom.r ∧ g = cFrom.g ∧ b = cFrom.b) :=
          fun h => hm h.2
        simp [mergeLoop, hasOpaqueColor, ha, hm, h3, ih]
  | hshort l hl =>
    rcases l with _ | ⟨x, _ | ⟨y, _ | ⟨z, _ | ⟨w, l⟩⟩⟩⟩
    · rfl
    · rfl
    · rfl
    · rfl
    · simp at hl

/-- C8: merging is idempotent — applying `mergeColorInImage` twice yields a
raster byte-for-byte equal to applying it once — and when the source and
target colors differ, no pixel with alpha at least 20 is left with RGB equal
to the source color after the first pass. -/
theorem mergeColorInImage_idempotent (cFrom cTo : RGB) (img : ImageDataL) :
    (mergeColorInImage cFrom cTo (mergeColorInImage cFrom cTo img).1).1 =
      (mergeColorInImage cFrom cTo img).1 ∧
    (cFrom ≠ cTo →
      hasOpaqueColor cFrom (mergeColorInImage cFrom cTo img).1.data = false) := by
  constructor
  · simp [mergeColorInImage, ImageDataL.mk.injEq, mergeLoop_idem cFrom cTo img.data]
  · intro hne
    simp only [mergeColorInImage]
    exact mergeLoop_no_from cFrom cTo hne img.data

/-- Witness instantiating C8 on a 1x1 raster holding the source color. -/
theorem mergeColorInImage_idempotent_witness :
    (mergeColorInImage ⟨1, 2, 3⟩ ⟨4, 5, 6⟩
        (mergeColorInImage ⟨1, 2, 3⟩ ⟨4, 5, 6⟩ ⟨1, 1, [1, 2, 3, 255]⟩).1).1 =
      (mergeColorInImage ⟨1, 2, 3⟩ ⟨4, 5, 6⟩ ⟨1, 1, [1, 2, 3, 255]⟩).1 ∧
    hasOpaqueColor ⟨1, 2, 3⟩
      (mergeColorInImage ⟨1, 2, 3⟩ ⟨4, 5, 6⟩ ⟨1, 1, [1, 2, 3, 255]⟩).1.data = false := by
  have h := mergeColorInImage_idempotent ⟨1, 2, 3⟩ ⟨4, 5, 6⟩ ⟨1, 1, [1, 2, 3, 255]⟩
  exact ⟨h.1, h.2 (by decide)⟩

/-! ## Jacquard engine (src/types jacquardModel, part_007) -/

/-- `WeaveStructure` (jacquard building block). -/
structure WeaveStructure where
  id : String
  name : String
  harnessCount : ℕ
  treadleCount : ℕ
  threading : List ℕ
  treadling : List ℕ
  tieUp : List ℕ
deriving DecidableEq, Repr

/-- View state of the jacquard editor. -/
structure JacquardView where
  zoom : ℚ
  panX : ℚ
  panY : ℚ
deriving DecidableEq, Repr

/-- `JacquardModel`: per-cell structure assignment grid (`Uint16Array`,
modelled as `List ℕ`) plus the structure table and display fields. -/
structure JacquardModel where
  width : ℕ
  height : ℕ
  grid : List ℕ
  structures : List WeaveStructure
  warpDensity : ℚ
  weftDensity : ℚ
  warpColors : List String
  weftColors : List String
  sourceImage : Option String
  view : JacquardView
deriving DecidableEq, Repr

/-- Cell rule of `generateJacquardDrawdown`: `grid[cellIdx] ?? 0` selects a
structure; a missing structure yields the warp-up fallback `1`; otherwise the
structure's own threading/treadling period and tie-up decide the lift. -/
def jacquardCell (m : JacquardModel) (x y : ℕ) : ℕ :=
  let cellIdx := y * m.width + x
  let structIdx := m.grid.getD cellIdx 0
  match m.structures[structIdx]? with
  | none => 1
  | some s =>
    let warpIdx := x % s.threading.length
    let weftIdx := y % s.treadling.length
    match s.threading[warpIdx]?, s.treadling[weftIdx]? with
    | some harness, some treadle =>
      match s.tieUp[harness * s.treadleCount + treadle]? with
      | some lift => if lift ≠ 0 then 1 else 0
      | none => 0
    | _, _ => 0

/-- `generateJacquardDrawdown` (part_007): row-major `width * height` grid. -/
def generateJacquardDrawdown (m : JacquardModel) : List ℕ :=
  (List.range (m.width * m.height)).map fun i =>
    jacquardCell m (i % m.width) (i / m.width)

theorem generateJacquardDrawdown_getElem? (m : JacquardModel) {x y : ℕ}
    (hx : x < m.width) (hy : y < m.height) :
    (generateJacquardDrawdown m)[y * m.width + x]? = some (jacquardCell m x y) := by
  have hW : 0 < m.width := Nat.pos_of_ne_zero (by omega)
  have hidx : y * m.width + x < m.width * m.height := by
    calc y * m.width + x < y * m.width + m.width := Nat.add_lt_add_left hx _
      _ = (y + 1) * m.width := by ring
      _ ≤ m.height * m.width := Nat.mul_le_mul_right _ hy
      _ = m.width * m.height := by ring
  rw [generateJacquardDrawdown]
  simp only [List.getElem?_map, List.getElem?_range hidx]
  have hmod : (y * m.width + x) % m.width = x := by
    rw [Nat.add_comm, Nat.add_mul_mod_self_right, Nat.mod_eq_of_lt hx]
  have hdiv : (y * m.width + x) / m.width = y := by
    rw [Nat.add_comm, Nat.add_mul_div_right _ _ hW, Nat.div_eq_of_lt hx, Nat.zero_add]
  simp [hmod, hdiv]

/-- C5: the jacquard drawdown always has `width * height` cells (the fallback
is never an error — the function is total); a cell whose grid entry does not
resolve to an existing structure is emitted as `1` (warp up); and a cell
whose entry resolves to a well-formed structure `s` equals `s`'s tie-up bit
at `threading[x mod len] * treadleCount + treadling[y mod len]`. -/
theorem generateJacquardDrawdown_spec (m : JacquardModel) :
    (generateJacquardDrawdown m).length = m.width * m.height ∧
    (∀ x y, x < m.width → y < m.height →
      m.structures[m.grid.getD (y * m.width + x) 0]? = none →
      (generateJacquardDrawdown m)[y * m.width + x]? = some 1) ∧
    (∀ x y (s : WeaveStructure), x < m.width → y < m.height →
      m.structures[m.grid.getD (y * m.width + x) 0]? = some s →
      s.threading.length ≠ 0 → s.treadling.length ≠ 0 →
      (∀ v ∈ s.threading, v < s.harnessCount) →
      (∀ v ∈ s.treadling, v < s.treadleCount) →
      s.tieUp.length = s.harnessCount * s.treadleCount →
      (∀ v ∈ s.tieUp, v ≤ 1) →
      (generateJacquardDrawdown m)[y * m.width + x]? =
        some (s.tieUp.getD
          (s.threading.getD (x % s.threading.length) 0 * s.treadleCount +
            s.treadling.getD (y % s.treadling.length) 0) 0)) := by
  refine ⟨by simp [generateJacquardDrawdown], ?_, ?_⟩
  · intro x y hx hy hnone
    rw [generateJacquardDrawdown_getElem? m hx hy]
    simp only [jacquardCell]
    rw [hnone]
  · intro x y s hx hy hsome hthne htrne hthv htrv htielen htiebit
    rw [generateJacquardDrawdown_getElem? m hx hy]
    simp only [jacquardCell]
    rw [hsome]
    have hwl : x % s.threading.length < s.threading.length :=
      Nat.mod_lt _ (Nat.pos_of_ne_zero hthne)
    have hfl : y % s.treadling.length < s.treadling.length :=
      Nat.mod_lt _ (Nat.pos_of_ne_zero htrne)
    show some (match s.threading[x % s.threading.length]?,
          s.treadling[y % s.treadling.length]? with
        | some harness, some treadle =>
          match s.tieUp[harness * s.treadleCount + treadle]? with
          | some lift => if lift ≠ 0 then 1 else 0
          | none => 0
        | _, _ => 0) = _
    rw [List.getElem?_eq_getElem hwl, List.getElem?_eq_getElem hfl]
    have hh : s.threading[x % s.threading.length] < s.harnessCount :=
      hthv _ (List.getElem_mem hwl)
    have ht : s.treadling[y % s.treadling.length] < s.treadleCount :=
      htrv _ (List.getElem_mem hfl)
    have hidx : s.threading[x % s.threading.length] * s.treadleCount +
        s.treadling[y % s.treadling.length] < s.tieUp.length := by
      rw [htielen]
      exact index_lt_mul hh ht
    show some (match s.tieUp[s.threading[x % s.threading.length] * s.treadleCount +
          s.treadling[y % s.treadling.length]]? with
        | some lift => if lift ≠ 0 then 1 else 0
        | none => 0) = _
    rw [List.getElem?_eq_getElem hidx]
    have e1 : s.threading.getD (x % s.threading.length) 0 =
        s.threading[x % s.threading.length] := by
      rw [List.getD_eq_getElem?_getD, List.getElem?_eq_getElem hwl]
      rfl
    have e2 : s.treadling.getD (y % s.treadling.length) 0 =
        s.treadling[y % s.treadling.length] := by
      rw [List.getD_eq_getElem?_getD, List.getElem?_eq_getElem hfl]
      rfl
    have e3 : s.tieUp.getD
        (s.threading.getD (x % s.threading.length) 0 * s.treadleCount +
          s.treadling.getD (y % s.treadling.length) 0) 0 =
        s.tieUp[s.threading[x % s.threading.length] * s.treadleCount +
          s.treadling[y % s.treadling.length]] := by
      rw [e1, e2, List.getD_eq_getElem?_getD, List.getElem?_eq_getElem hidx]
      rfl
    rw [e3]
    have hbit := htiebit _ (List.getElem_mem hidx)
    have : s.tieUp[s.threading[x % s.threading.length] * s.treadleCount +
        s.treadling[y % s.treadling.length]] = 0 ∨
        s.tieUp[s.threading[x % s.threading.length] * s.treadleCount +
        s.treadling[y % s.treadling.length]] = 1 := by omega
    rcases this with h | h <;> rw [h] <;> simp

/-- A plain-weave jacquard structure for the C5 witness. -/
def demoStructure : WeaveStructure :=
  ⟨"s0", "plain", 2, 2, [0, 1], [0, 1], [1, 0, 0, 1]⟩

/-- A 2x1 jacquard model whose second cell references a missing structure. -/
def demoJacquard : JacquardModel where
  width := 2
  height := 1
  grid := [0, 7]
  structures := [demoStructure]
  warpDensity := 10
  weftDensity := 10
  warpColors := []
  weftColors := []
  sourceImage := none
  view := ⟨1, 0, 0⟩

/-- Witness instantiating C5: cell `(1,0)` hits the warp-up fallback, cell
`(0,0)` resolves `demoStructure`. -/
theorem generateJacquardDrawdown_spec_witness :
    (generateJacquardDrawdown demoJacquard)[0 * demoJacquard.width + 1]? = some 1 ∧
    (generateJacquardDrawdown demoJacquard)[0 * demoJacquard.width + 0]? =
      some (demoStructure.tieUp.getD
        (demoStructure.threading.getD (0 % demoStructure.threading.length) 0 *
            demoStructure.treadleCount +
          demoStructure.treadling.getD (0 % demoStructure.treadling.length) 0) 0) := by
  obtain ⟨_, h2, h3⟩ := generateJacquardDrawdown_spec demoJacquard
  exact ⟨h2 1 0 (by decide) (by decide) (by decide),
    h3 0 0 demoStructure (by decide) (by decide) (by decide) (by decide) (by decide)
      (by decide) (by decide) (by decide) (by decide)⟩

/-! ## Speck removal (src/core/imaging/majorityFilter.ts removeSpecks,
src/core/imaging/indexMap.ts) -/

/-- `neighbors4`: right, left, down, up — in source order (it drives both the
stack pushes and the tally insertion order). -/
def neighbors4 (x y : ℤ) : List (ℤ × ℤ) :=
  [(x + 1, y), (x - 1, y), (x, y + 1), (x, y - 1)]

/-- `pixelToPaletteIndex` (indexMap.ts): first exact RGB match, else `-1`. -/
def pixelToPaletteIndex (r g b : ℕ) (paletteRgb : List RGB) : ℤ :=
  match paletteRgb.findIdx? (fun p => p.r = r ∧ p.g = g ∧ p.b = b) with
  | some i => (i : ℤ)
  | none => -1

/-- Palette index map of `removeSpecks` (an `Int16Array`): `-1` for alpha
below 20 or an unmatched pixel, else the palette index; position
`j = y * w + x`, pixel base byte `4 * j`. -/
def buildIndexMap (w h : ℕ) (data : List ℕ) (pal : List RGB) : List ℤ :=
  (List.range (w * h)).map fun j =>
    if data.getD (4 * j + 3) 0 < 20 then -1
    else pixelToPaletteIndex (data.getD (4 * j) 0) (data.getD (4 * j + 1) 0)
      (data.getD (4 * j + 2) 0) pal

/-- Stack-based flood fill of `removeSpecks`.  The JavaScript array used as a
stack pushes and pops at the end; the model keeps the top of the stack at the
head, giving the same pop order.  Out-of-bounds neighbors are skipped before
the visited check; a visited mark is set for every in-bounds neighbor, and
only same-index neighbors join the queue and the cluster (in discovery
order).  `fuel` dominates the number of pops: each pop either empties the
queue or marks at least the popped entry's successors visited, so
`w * h + 1` pops always suffice (the caller passes exactly that). -/
def floodFill (mapArr : List ℤ) (w h : ℕ) (colorIndex : ℤ) :
    ℕ → List (ℤ × ℤ) → List (ℤ × ℤ) → List Bool → List (ℤ × ℤ) × List Bool
  | 0, _, cluster, visited => (cluster, visited)
  | fuel + 1, queue, cluster, visited =>
    match queue with
    | [] => (cluster, visited)
    | cur :: restQ =>
      let st := (neighbors4 cur.1 cur.2).foldl
        (fun (acc : List (ℤ × ℤ) × List (ℤ × ℤ) × List Bool) n =>
          if n.1 < 0 ∨ n.2 < 0 ∨ n.1 ≥ (w : ℤ) ∨ n.2 ≥ (h : ℤ) then acc
          else
            let ni := (n.2 * (w : ℤ) + n.1).toNat
            if acc.2.2.getD ni false then acc
            else
              let visited' := acc.2.2.set ni true
              if mapArr.getD ni (-1) = colorIndex then
                (n :: acc.1, acc.2.1 ++ [n], visited')
              else (acc.1, acc.2.1, visited'))
        (restQ, cluster, visited)
      floodFill mapArr w h colorIndex fuel st.1 st.2.1 st.2.2

/-- Insertion-ordered tally map (`Map<number, number>` keeps insertion order,
which the tie-break below depends on). -/
def bumpAssoc (l : List (ℤ × ℕ)) (c : ℤ) : List (ℤ × ℕ) :=
  match l with
  | [] => [(c, 1)]
  | (k, v) :: rest => if k = c then (k, v + 1) :: rest else (k, v) :: bumpAssoc rest c

/-- Border tally of a cluster: frequencies of in-bounds neighbor indices that
are valid (non-negative) and different from the cluster's own index. -/
def tallyBorder (mapArr : List ℤ) (w h : ℕ) (colorIndex : ℤ)
    (cluster : List (ℤ × ℤ)) : List (ℤ × ℕ) :=
  cluster.foldl
    (fun acc pt =>
      (neighbors4 pt.1 pt.2).foldl
        (fun acc n =>
          if n.1 < 0 ∨ n.2 < 0 ∨ n.1 ≥ (w : ℤ) ∨ n.2 ≥ (h : ℤ) then acc
          else
            let c := mapArr.getD (n.2 * (w : ℤ) + n.1).toNat (-1)
            if c < 0 ∨ c = colorIndex then acc
            else bumpAssoc acc c)
        acc)
    []

/-- Replacement choice: first strictly-larger count wins, starting from the
cluster's own index at count `-1` (so an empty tally keeps `colorIndex`). -/
def chooseReplacement (colorIndex : ℤ) (counts : List (ℤ × ℕ)) : ℤ :=
  (counts.foldl
    (fun (acc : ℤ × ℤ) kv =>
      if (kv.2 : ℤ) > acc.2 then ((kv.1 : ℤ), (kv.2 : ℤ)) else acc)
    (colorIndex, -1)).1

/-- The four byte writes of the repaint loop body: RGB of the replacement
palette entry and alpha 255 at pixel base byte `p`. -/
def setPixel (dataArr : List ℕ) (p : ℕ) (c : RGB) : List ℕ :=
  (((dataArr.set p c.r).set (p + 1) c.g).set (p + 2) c.b).set (p + 3) 255

/-- Per-cluster tail of the `removeSpecks` scan: keep clusters at or above
`minClusterSize`; otherwise tally the border, choose the replacement, and
repaint every cluster pixel (incrementing `removedPixels` per pixel, whether
or not the bytes change). -/
def processCluster (pal : List RGB) (mapArr : List ℤ) (w h minClusterSize : ℕ)
    (colorIndex : ℤ) (cluster : List (ℤ × ℤ)) (dataArr : List ℕ)
    (removed : ℕ) : List ℕ × ℕ :=
  if cluster.length ≥ minClusterSize then (dataArr, removed)
  else
    let borderCounts := tallyBorder mapArr w h colorIndex cluster
    let replacement := chooseReplacement colorIndex borderCounts
    let repRgb := pal.getD replacement.toNat ⟨0, 0, 0⟩
    cluster.foldl
      (fun acc pt => (setPixel acc.1 ((pt.2 * (w : ℤ) + pt.1).toNat * 4) repRgb, acc.2 + 1))
      (dataArr, removed)

/-- `removeSpecks` (majorityFilter.ts): index map, then scan all positions in
row-major order; an unvisited resolvable position seeds a flood fill and its
cluster is processed.  Returns the repainted buffer and `removedPixels`.
The palette is taken already parsed from hex (`buildPaletteRgb` is a direct
per-entry hex decode). -/
def removeSpecks (w h : ℕ) (data : List ℕ) (pal : List RGB)
    (minClusterSize : ℕ) : List ℕ × ℕ :=
  let mapArr := buildIndexMap w h data pal
  let final := (List.range (w * h)).foldl
    (fun (st : List Bool × List ℕ × ℕ) start =>
      if st.1.getD start false then st
      else
        let colorIndex := mapArr.getD start (-1)
        let visited := st.1.set start true
        if colorIndex < 0 then (visited, st.2.1, st.2.2)
        else
          let pt : ℤ × ℤ := (((start % w : ℕ) : ℤ), ((start / w : ℕ) : ℤ))
          let ff := floodFill mapArr w h colorIndex (w * h + 1) [pt] [pt] visited
          let pc := processCluster pal mapArr w h minClusterSize colorIndex ff.1
            st.2.1 st.2.2
          (ff.2, pc.1, pc.2))
    (List.replicate (w * h) false, data, 0)
  (final.2.1, final.2.2)

/-- Counterexample to C4 as stated: a single opaque pixel (alpha 200)
matching palette entry 0 forms a 1-pixel cluster below `minClusterSize = 2`
with an empty border tally (no in-bounds neighbor); the claim demands the
pixel bytes stay identical and `removedPixels = 0`, but `removeSpecks`
repaints the cluster with its own color at alpha 255 and reports
`removedPixels = 1`. -/
theorem removeSpecks_count_counterexample :
    removeSpecks 1 1 [0, 0, 0, 200] [⟨0, 0, 0⟩] 2 = ([0, 0, 0, 255], 1) ∧
    (1 : ℕ) ≠ 0 ∧ ([0, 0, 0, 255] : List ℕ) ≠ [0, 0, 0, 200] :=
  ⟨by decide, by decide, by decide⟩

theorem getD_set_eq {l : List ℕ} {i : ℕ} (h : i < l.length) (v : ℕ) :
    (l.set i v).getD i 0 = v := by
  rw [List.getD_eq_getElem?_getD, List.getElem?_set]
  simp [h]

theorem getD_set_ne {l : List ℕ} {i j : ℕ} (h : i ≠ j) (v : ℕ) :
    (l.set i v).getD j 0 = l.getD j 0 := by
  rw [List.getD_eq_getElem?_getD, List.getElem?_set, if_neg h,
    ← List.getD_eq_getElem?_getD]

theorem setPixel_length (dataArr : List ℕ) (p : ℕ) (c : RGB) :
    (setPixel dataArr p c).length = dataArr.length := by
  simp [setPixel]

theorem getD_setPixel {dataArr : List ℕ} {p : ℕ} (hp : p + 3 < dataArr.length)
    (c : RGB) (j : ℕ) :
    (setPixel dataArr p c).getD j 0 =
      if j = p then c.r else if j = p + 1 then c.g else if j = p + 2 then c.b
      else if j = p + 3 then 255 else dataArr.getD j 0 := by
  unfold setPixel
  by_cases h1 : j = p
  · subst h1
    rw [getD_set_ne (by omega), getD_set_ne (by omega), getD_set_ne (by omega),
      getD_set_eq (by omega)]
    rw [if_pos rfl]
  · by_cases h2 : j = p + 1
    · subst h2
      rw [getD_set_ne (by omega), getD_set_ne (by omega),
        getD_set_eq (by simp only [List.length_set]; omega)]
      rw [if_neg h1, if_pos rfl]
    · by_cases h3 : j = p + 2
      · subst h3
        rw [getD_set_ne (by omega),
          getD_set_eq (by simp only [List.length_set]; omega)]
        rw [if_neg h1, if_neg h2, if_pos rfl]
      · by_cases h4 : j = p + 3
        · subst h4
          rw [getD_set_eq (by simp only [List.length_set]; omega)]
          rw [if_neg h1, if_neg h2, if_neg h3, if_pos rfl]
        · rw [getD_set_ne (fun he => h4 he.symm), getD_set_ne (fun he => h3 he.symm),
            getD_set_ne (fun he => h2 he.symm), getD_set_ne (fun he => h1 he.symm),
            if_neg h1, if_neg h2, if_neg h3, if_neg h4]

theorem repaint_fold (rep : RGB) (w : ℕ) :
    ∀ (cl : List (ℤ × ℤ)) (dataArr : List ℕ) (removed : ℕ),
      (∀ pt ∈ cl,
        (pt.2 * (w : ℤ) + pt.1).toNat * 4 + 3 < dataArr.length ∧
        dataArr.getD ((pt.2 * (w : ℤ) + pt.1).toNat * 4) 0 = rep.r ∧
        dataArr.getD ((pt.2 * (w : ℤ) + pt.1).toNat * 4 + 1) 0 = rep.g ∧
        dataArr.getD ((pt.2 * (w : ℤ) + pt.1).toNat * 4 + 2) 0 = rep.b) →
      (cl.foldl
        (fun acc pt =>
          (setPixel acc.1 ((pt.2 * (w : ℤ) + pt.1).toNat * 4) rep, acc.2 + 1))
        (dataArr, removed)).2 = removed + cl.length ∧
      ∀ j, (cl.foldl
        (fun acc pt =>
          (setPixel acc.1 ((pt.2 * (w : ℤ) + pt.1).toNat * 4) rep, acc.2 + 1))
        (dataArr, removed)).1.getD j 0 =
        if ∃ pt ∈ cl, j = (pt.2 * (w : ℤ) + pt.1).toNat * 4 + 3 then 255
        else dataArr.getD j 0 := by
  intro cl
  induction cl with
  | nil =>
    intro dataArr removed _
    exact ⟨rfl, fun j => by simp⟩
  | cons pt0 rest ih =>
    intro dataArr removed h
    have h0 := h pt0 (List.mem_cons_self _ _)
    have hget' : ∀ j, (setPixel dataArr ((pt0.2 * (w : ℤ) + pt0.1).toNat * 4) rep).getD j 0 =
        if j = (pt0.2 * (w : ℤ) + pt0.1).toNat * 4 + 3 then 255 else dataArr.getD j 0 := by
      intro j
      rw [getD_setPixel h0.1]
      by_cases h1 : j = (pt0.2 * (w : ℤ) + pt0.1).toNat * 4
      · rw [if_pos h1, if_neg (by omega)]
        rw [h1]
        exact h0.2.1.symm
      · rw [if_neg h1]
        by_cases h2 : j = (pt0.2 * (w : ℤ) + pt0.1).toNat * 4 + 1
        · rw [if_pos h2, if_neg (by omega)]
          rw [h2]
          exact h0.2.2.1.symm
        · rw [if_neg h2]
          by_cases h3 : j = (pt0.2 * (w : ℤ) + pt0.1).toNat * 4 + 2
          · rw [if_pos h3, if_neg (by omega)]
            rw [h3]
            exact h0.2.2.2.symm
          · rw [if_neg h3]
    have hrest : ∀ pt ∈ rest,
        (pt.2 * (w : ℤ) + pt.1).toNat * 4 + 3 <
          (setPixel dataArr ((pt0.2 * (w : ℤ) + pt0.1).toNat * 4) rep).length ∧
        (setPixel dataArr ((pt0.2 * (w : ℤ) + pt0.1).toNat * 4) rep).getD
          ((pt.2 * (w : ℤ) + pt.1).toNat * 4) 0 = rep.r ∧
        (setPixel dataArr ((pt0.2 * (w : ℤ) + pt0.1).toNat * 4) rep).getD
          ((pt.2 * (w : ℤ) + pt.1).toNat * 4 + 1) 0 = rep.g ∧
        (setPixel dataArr ((pt0.2 * (w : ℤ) + pt0.1).toNat * 4) rep).getD
          ((pt.2 * (w : ℤ) + pt.1).toNat * 4 + 2) 0 = rep.b := by
      intro pt hpt
      obtain ⟨hl, hr, hg, hb⟩ := h pt (List.mem_cons_of_mem _ hpt)
      refine ⟨by rw [setPixel_length]; exact hl, ?_, ?_, ?_⟩
      · rw [hget', if_neg (by omega)]
        exact hr
      · rw [hget', if_neg (by omega)]
        exact hg
      · rw [hget', if_neg (by omega)]
        exact hb
    obtain ⟨ihc, ihg⟩ := ih (setPixel dataArr ((pt0.2 * (w : ℤ) + pt0.1).toNat * 4) rep)
      (removed + 1) hrest
    constructor
    · simp only [List.foldl_cons]
      rw [ihc]
      simp only [List.length_cons]
      omega
    · intro j
      simp only [List.foldl_cons]
      rw [ihg j]
      by_cases hj : ∃ pt ∈ rest, j = (pt.2 * (w : ℤ) + pt.1).toNat * 4 + 3
      · obtain ⟨pt, hpt, he⟩ := hj
        rw [if_pos ⟨pt, hpt, he⟩, if_pos ⟨pt, List.mem_cons_of_mem _ hpt, he⟩]
      · rw [if_neg hj, hget' j]
        by_cases hj0 : j = (pt0.2 * (w : ℤ) + pt0.1).toNat * 4 + 3
        · rw [if_pos hj0, if_pos ⟨pt0, List.mem_cons_self _ _, hj0⟩]
        · have hne : ¬ ∃ pt ∈ pt0 :: rest,
              j = (pt.2 * (w : ℤ) + pt.1).toNat * 4 + 3 := by
            rintro ⟨pt, hpt, he⟩
            rcases List.mem_cons.mp hpt with rfl | hpt'
            · exact hj0 he
            · exact hj ⟨pt, hpt', he⟩
          rw [if_neg hj0, if_neg hne]

/-- C4 (amended): a cluster below `minClusterSize` whose border tally is
empty is not left untouched — it is repainted with its own palette color.
Under the invariants the scan establishes for a processed cluster (each
cluster pixel's bytes exactly match the palette entry of the cluster's
index, at in-range positions), `processCluster` preserves every RGB byte,
forces the alpha byte of each cluster pixel to 255, and still advances
`removedPixels` by the full cluster size, even though no pixel was repainted
to a different palette index. -/
theorem processCluster_empty_tally (pal : List RGB) (mapArr : List ℤ)
    (w h minClusterSize : ℕ) (colorIndex : ℤ) (cluster : List (ℤ × ℤ))
    (dataArr : List ℕ) (removed : ℕ)
    (hsize : cluster.length < minClusterSize)
    (hempty : tallyBorder mapArr w h colorIndex cluster = [])
    (hdata : ∀ pt ∈ cluster,
      (pt.2 * (w : ℤ) + pt.1).toNat * 4 + 3 < dataArr.length ∧
      dataArr.getD ((pt.2 * (w : ℤ) + pt.1).toNat * 4) 0 =
        (pal.getD colorIndex.toNat ⟨0, 0, 0⟩).r ∧
      dataArr.getD ((pt.2 * (w : ℤ) + pt.1).toNat * 4 + 1) 0 =
        (pal.getD colorIndex.toNat ⟨0, 0, 0⟩).g ∧
      dataArr.getD ((pt.2 * (w : ℤ) + pt.1).toNat * 4 + 2) 0 =
        (pal.getD colorIndex.toNat ⟨0, 0, 0⟩).b) :
    (processCluster pal mapArr w h minClusterSize colorIndex cluster dataArr
      removed).2 = removed + cluster.length ∧
    ∀ j, (processCluster pal mapArr w h minClusterSize colorIndex cluster dataArr
        removed).1.getD j 0 =
      if ∃ pt ∈ cluster, j = (pt.2 * (w : ℤ) + pt.1).toNat * 4 + 3 then 255
      else dataArr.getD j 0 := by
  have hq : processCluster pal mapArr w h minClusterSize colorIndex cluster dataArr
      removed =
      cluster.foldl
        (fun acc pt =>
          (setPixel acc.1 ((pt.2 * (w : ℤ) + pt.1).toNat * 4)
            (pal.getD colorIndex.toNat ⟨0, 0, 0⟩), acc.2 + 1))
        (dataArr, removed) := by
    simp only [processCluster, hempty]
    rw [if_neg (by omega)]
    rfl
  rw [hq]
  exact repaint_fold (pal.getD colorIndex.toNat ⟨0, 0, 0⟩) w cluster dataArr removed hdata

/-- Witness instantiating the amended C4: a single opaque pixel matching
palette entry 0 in a 1x1 image, `minClusterSize = 2`, empty tally;
`removedPixels` advances by the cluster size 1. -/
theorem processCluster_empty_tally_witness :
    (processCluster [⟨9, 9, 9⟩] [0] 1 1 2 0 [((0 : ℤ), (0 : ℤ))] [9, 9, 9, 200] 0).2 =
      0 + ([((0 : ℤ), (0 : ℤ))] : List (ℤ × ℤ)).length :=
  (processCluster_empty_tally [⟨9, 9, 9⟩] [0] 1 1 2 0 [((0 : ℤ), (0 : ℤ))]
    [9, 9, 9, 200] 0 (by decide) (by decide) (by decide)).1
